import Mathlib

set_option linter.unreachableTactic false
set_option linter.unusedTactic false
set_option linter.unusedVariables false

/-!
Verification of the browser Arduino IDE (heuristic "compiler", rule-based AI
fix suggester, Web Serial uploader, local-storage project persistence).

JavaScript strings are modelled as `List Char`, machine integers as `Int`/`Nat`,
fallible operations as `Except`/`Option`, and the browser environment (network,
Web Serial) as explicit environment records.
-/

abbrev Str := List Char

/-- The character U+007B (opening curly bracket). -/
def lbrace : Char := Char.ofNat 123

/-- The character U+007D (closing curly bracket). -/
def rbrace : Char := Char.ofNat 125

/-- JavaScript `String.prototype.trim` whitespace (the ASCII whitespace
characters plus NBSP and the BOM; further exotic Unicode space characters are
omitted from the model). -/
def isJsWS (c : Char) : Bool :=
  c = ' ' || c = '\t' || c = '\n' || c = '\r' ||
  c = Char.ofNat 11 || c = Char.ofNat 12 || c = Char.ofNat 0xa0 || c = Char.ofNat 0xfeff

/-- Strip leading JS whitespace. -/
def trimL (s : Str) : Str := s.dropWhile isJsWS

/-- Strip trailing JS whitespace. -/
def trimR (s : Str) : Str := (s.reverse.dropWhile isJsWS).reverse

/-- JavaScript `s.trim()`. -/
def trim (s : Str) : Str := trimR (trimL s)

/-- JavaScript `s.split(sep)` for a single-character separator. -/
def splitOnChar (sep : Char) : Str → List Str
  | [] => [[]]
  | c :: rest =>
    if c = sep then [] :: splitOnChar sep rest
    else
      match splitOnChar sep rest with
      | [] => [[c]]
      | l :: ls => (c :: l) :: ls

/-- JavaScript `code.split(String.fromCharCode(10))`. -/
def splitLines (s : Str) : List Str := splitOnChar '\n' s

/-- JavaScript `s.includes(pat)`: `pat` occurs as a contiguous substring. -/
def containsStr (pat : Str) : Str → Bool
  | [] => pat.isEmpty
  | c :: rest => pat.isPrefixOf (c :: rest) || containsStr pat rest

/-- JavaScript `s.startsWith(pat)`. -/
def startsWithStr (pat s : Str) : Bool := pat.isPrefixOf s

/-- JavaScript `s.endsWith(c)` for a one-character suffix. -/
def endsWithChar (c : Char) (s : Str) : Bool := s.getLast? == some c

/-- First index of a substring, or none. -/
def idxOfStrAux (pat : Str) : Str → Option Nat
  | [] => if pat.isEmpty then some 0 else none
  | c :: rest =>
    if pat.isPrefixOf (c :: rest) then some 0
    else (idxOfStrAux pat rest).map (· + 1)

/-- JavaScript `s.indexOf(pat)` (−1 when absent). -/
def idxOfStr (pat s : Str) : Int :=
  match idxOfStrAux pat s with
  | some n => (n : Int)
  | none => -1

/-- JavaScript `s.indexOf(c)` for a single character. -/
def idxOfChar (c : Char) (s : Str) : Int := idxOfStr [c] s

/-- Decimal rendering of a natural number, as emitted by JS template strings. -/
def natStr (n : Nat) : Str := (Nat.repr n).data

/-- JS regex `\w` character class. -/
def isWordChar (c : Char) : Bool := c.isAlphanum || c = '_'

/-- Severity of a heuristic diagnostic (`'error' | 'warning'`). -/
inductive Severity where
  | error
  | warning
deriving DecidableEq, Repr

/-- `CompilationError` record from `src/types`. -/
structure CompilationError where
  line : Int
  column : Int
  message : Str
  severity : Severity
deriving DecidableEq, Repr

namespace ArduinoCompiler

/-- The apostrophe character, used inside several diagnostic messages. -/
def apos : Char := Char.ofNat 39

def multiStmtMsg : Str :=
  "SYNTAX ERROR: Multiple statements on same line. Each statement must be on a separate line.".data

def misspellMsg (f c : Str) : Str :=
  "COMPILATION ERROR: Function ".data ++ ([apos] ++ (f ++ ([apos] ++
  (" appears to be misspelled. Did you mean ".data ++ ([apos] ++ (c ++ ([apos] ++ "?".data)))))))

def redefMsg (f : Str) : Str :=
  "COMPILATION ERROR: Redefinition of function ".data ++ ([apos] ++ (f ++ ([apos] ++
  ". Function already declared.".data)))

def shortNameMsg (f : Str) : Str :=
  "WARNING: Function name ".data ++ ([apos] ++ (f ++ ([apos] ++
  (" is too short. Use descriptive names (e.g., ".data ++ ([apos] ++ ("blinkLED".data ++ ([apos] ++
  (", ".data ++ ([apos] ++ ("readSensor".data ++ ([apos] ++ ").".data)))))))))))

def invalidNameMsg (f : Str) : Str :=
  "SYNTAX ERROR: Invalid function name ".data ++ ([apos] ++ (f ++ ([apos] ++
  ". Function names must start with letter or underscore.".data)))

def invalidDeclMsg : Str :=
  "SYNTAX ERROR: Invalid function declaration syntax. Expected: void functionName();".data

def semiMsg : Str := "SYNTAX ERROR: Expected `;` at end of statement".data

def pinModeMsg : Str := "SYNTAX ERROR: pinMode function call missing opening parenthesis".data

def digitalWriteMsg : Str := "SYNTAX ERROR: digitalWrite function call missing opening parenthesis".data

def digitalReadMsg : Str := "SYNTAX ERROR: digitalRead function call missing opening parenthesis".data

def varDeclMsg : Str := "WARNING: Variable declaration missing type (int, float, char, etc.)".data

def parenMsg : Str := "SYNTAX ERROR: Mismatched parentheses".data

def setupMsg : Str := "Arduino sketch must have a void setup() function".data

def loopMsg : Str := "Arduino sketch must have a void loop() function".data

/-- Type keywords of the regex alternation `(void|int|float|char|bool|String)`.
No keyword is a prefix of another and all start with distinct letters, so the
regex engine's alternation order is irrelevant. -/
def typeKeywords : List Str :=
  ["void".data, "int".data, "float".data, "char".data, "bool".data, "String".data]

def stripFirstPrefix : List Str → Str → Option Str
  | [], _ => none
  | k :: ks, s => if k.isPrefixOf s then some (s.drop k.length) else stripFirstPrefix ks s

/-- The regex fragment `\s+(\w+)\s*\([^)]*\)`: returns the captured name and the
remainder after the closing parenthesis.  Greedy matching needs no backtracking
here because `\s`, `\w` and the literal delimiters are pairwise disjoint. -/
def parseFuncCore (s : Str) : Option (Str × Str) :=
  let (ws, s1) := s.span isJsWS
  if ws.isEmpty then none
  else
    let (nm, s2) := s1.span isWordChar
    if nm.isEmpty then none
    else
      match s2.dropWhile isJsWS with
      | '(' :: s4 =>
        let (_, s5) := s4.span (fun c => !(c = ')'))
        match s5 with
        | ')' :: s6 => some (nm, s6)
        | _ => none
      | _ => none

/-- The anchored regex `^(void|int|float|char|bool|String)\s+\w+\s*\([^)]*\)\s*[;{]`
(line 47): returns the function name (capture group 2) when it matches. -/
def parseTypedFuncDecl (s : Str) : Option Str :=
  match stripFirstPrefix typeKeywords s with
  | none => none
  | some rest =>
    match parseFuncCore rest with
    | none => none
    | some (nm, s6) =>
      match s6.dropWhile isJsWS with
      | c :: _ => if c = ';' || c = lbrace then some nm else none
      | [] => none

/-- The `misspelledArduinoFunctions` lookup object (line 53). -/
def misspellMap (f : Str) : Option Str :=
  if f = "lop".data then some "loop".data
  else if f = "loo".data then some "loop".data
  else if f = "looop".data then some "loop".data
  else if f = "setu".data then some "setup".data
  else if f = "setpu".data then some "setup".data
  else if f = "setp".data then some "setup".data
  else none

/-- One attempt of the unanchored regex `void\s+(\w+)\s*\([^)]*\)` at the
current position. -/
def tryVoidAt (s : Str) : Option Str :=
  if ("void".data).isPrefixOf s then
    match parseFuncCore (s.drop 4) with
    | some (nm, _) => some nm
    | none => none
  else none

/-- Leftmost match of `void\s+(\w+)\s*\([^)]*\)` (line 85), returning group 1. -/
def findVoidFunc : Str → Option Str
  | [] => none
  | c :: rest =>
    match tryVoidAt (c :: rest) with
    | some nm => some nm
    | none => findVoidFunc rest

/-- The regex `^[a-zA-Z_][a-zA-Z0-9_]*$` (line 100). -/
def validIdent : Str → Bool
  | [] => false
  | c :: rest => (c.isAlpha || c = '_') && rest.all isWordChar

/-- The anchored regex `^void\s+\w+\s*\([^)]*\)\s*;$` (line 112). -/
def fullDeclOk (s : Str) : Bool :=
  if ("void".data).isPrefixOf s then
    match parseFuncCore (s.drop 4) with
    | some (_, s6) => s6.dropWhile isJsWS == [';']
    | none => false
  else false

/-- Duplicate / misspelled function declaration check (lines 47-81), threading
the `functionDeclarations` set (modelled as a list of seen names). -/
def declCheck (decls : List Str) (lineNum : Int) (trimmed : Str) :
    List Str × List CompilationError :=
  match parseTypedFuncDecl trimmed with
  | none => (decls, [])
  | some fname =>
    match misspellMap fname with
    | some correct => (decls, [⟨lineNum, 0, misspellMsg fname correct, .error⟩])
    | none =>
      if fname ∈ decls then (decls, [⟨lineNum, 0, redefMsg fname, .error⟩])
      else (fname :: decls, [])

/-- Invalid function name / declaration syntax checks (lines 84-121). -/
def voidChecks (lineNum : Int) (trimmed : Str) : List CompilationError :=
  if containsStr "void ".data trimmed && trimmed.contains '(' && trimmed.contains ')' then
    (match findVoidFunc trimmed with
     | some fname =>
       (if fname.length ≤ 3 && !(fname = "setup".data || fname = "loop".data) then
          [⟨lineNum, 0, shortNameMsg fname, .warning⟩]
        else []) ++
       (if !validIdent fname then [⟨lineNum, 0, invalidNameMsg fname, .error⟩] else [])
     | none => []) ++
    (if endsWithChar ';' trimmed && !fullDeclOk trimmed then
       [⟨lineNum, 0, invalidDeclMsg, .error⟩]
     else [])
  else []

/-- Guard of the missing-semicolon check (lines 124-142). -/
def semiGuard (trimmed : Str) : Bool :=
  !endsWithChar ';' trimmed && !endsWithChar lbrace trimmed &&
  !endsWithChar rbrace trimmed && !startsWithStr "#".data trimmed &&
  !containsStr "void setup".data trimmed && !containsStr "void loop".data trimmed &&
  !containsStr "if (".data trimmed && !containsStr "else".data trimmed &&
  !containsStr "for (".data trimmed && !containsStr "while (".data trimmed &&
  !containsStr "do".data trimmed && !containsStr "switch (".data trimmed &&
  !containsStr "case ".data trimmed && !containsStr "return".data trimmed &&
  !containsStr "break".data trimmed && !containsStr "continue".data trimmed &&
  trimmed.length > 0

/-- Missing-semicolon check (lines 123-149); the column is the raw line
length. -/
def semiCheck (lineNum lineLen : Int) (trimmed : Str) : List CompilationError :=
  if semiGuard trimmed then [⟨lineNum, lineLen, semiMsg, .error⟩] else []

/-- `pinMode` / `digitalWrite` / `digitalRead` call checks (lines 151-177). -/
def callChecks (lineNum : Int) (trimmed : Str) : List CompilationError :=
  (if containsStr "pinMode".data trimmed && !containsStr "pinMode(".data trimmed then
     [⟨lineNum, idxOfStr "pinMode".data trimmed + 7, pinModeMsg, .error⟩]
   else []) ++
  (if containsStr "digitalWrite".data trimmed && !containsStr "digitalWrite(".data trimmed then
     [⟨lineNum, idxOfStr "digitalWrite".data trimmed + 11, digitalWriteMsg, .error⟩]
   else []) ++
  (if containsStr "digitalRead".data trimmed && !containsStr "digitalRead(".data trimmed then
     [⟨lineNum, idxOfStr "digitalRead".data trimmed + 10, digitalReadMsg, .error⟩]
   else [])

/-- Untyped variable declaration check (lines 179-193). -/
def varDeclCheck (lineNum : Int) (trimmed : Str) : List CompilationError :=
  if trimmed.contains '=' && !containsStr "int ".data trimmed &&
     !containsStr "float ".data trimmed && !containsStr "char ".data trimmed &&
     !containsStr "bool ".data trimmed && !containsStr "String ".data trimmed &&
     !containsStr "const ".data trimmed && !containsStr "static ".data trimmed &&
     !containsStr "void setup".data trimmed && !containsStr "void loop".data trimmed then
    let equalIndex := idxOfChar '=' trimmed
    if equalIndex > 0 && !((trimmed.take equalIndex.toNat).contains ' ') then
      [⟨lineNum, 0, varDeclMsg, .warning⟩]
    else []
  else []

/-- Mismatched-parentheses check (lines 195-205). -/
def parenCheck (lineNum : Int) (trimmed : Str) : List CompilationError :=
  if trimmed.count '(' = trimmed.count ')' then []
  else [⟨lineNum, 0, parenMsg, .error⟩]

/-- Guard of line 32: empty or comment-like lines are skipped entirely. -/
def skipLine (trimmed : Str) : Bool :=
  trimmed.isEmpty || startsWithStr "//".data trimmed ||
  startsWithStr "/*".data trimmed || startsWithStr "*".data trimmed

/-- Processing of one line of the `forEach` body (lines 32-206): the per-line
diagnostic pushes together with the update of the `functionDeclarations` set. -/
def lineStep (decls : List Str) (lineNum : Int) (line : Str) :
    List Str × List CompilationError :=
  let trimmed := trim line
  if skipLine trimmed then
    (decls, [])
  else if trimmed.count ';' > 1 then
    -- `return` (line 43) skips all further checks for this line
    (decls, [⟨lineNum, 0, multiStmtMsg, .error⟩])
  else
    let d := declCheck decls lineNum trimmed
    (d.1,
      d.2 ++ voidChecks lineNum trimmed ++ semiCheck lineNum (line.length : Int) trimmed ++
      callChecks lineNum trimmed ++ varDeclCheck lineNum trimmed ++ parenCheck lineNum trimmed)

/-- `hasSetup` accumulator (line 18): some line whose trimmed form contains
`void setup()`. -/
def hasSetupIn (lines : List Str) : Bool :=
  lines.any (fun l => containsStr "void setup()".data (trim l))

/-- `hasLoop` accumulator (line 19). -/
def hasLoopIn (lines : List Str) : Bool :=
  lines.any (fun l => containsStr "void loop()".data (trim l))

/-- Character step of the brace scan (lines 21-30).  The JS code pushes line
numbers onto the end of `unclosedBraces` and pops from the end; the model keeps
the top of that stack at the head of the list.  `Array.prototype.pop` on an
empty array leaves it empty, which is `List.tail [] = []`. -/
def braceChar (lineNum : Nat) (acc : Int × List Nat) (c : Char) : Int × List Nat :=
  if c = lbrace then (acc.1 + 1, lineNum :: acc.2)
  else if c = rbrace then (acc.1 - 1, acc.2.tail)
  else acc

/-- Brace scan over all lines, threading `(braceCount, unclosedBraces)`. -/
def braceScan : Nat → (Int × List Nat) → List Str → Int × List Nat
  | _, acc, [] => acc
  | n, acc, l :: ls => braceScan (n + 1) (l.foldl (braceChar n) acc) ls

/-- The per-line diagnostics of the whole `forEach` loop, threading the
declaration set. -/
def analyzeLines (decls : List Str) (lineNum : Int) : List Str → List CompilationError
  | [] => []
  | l :: ls =>
    let step := lineStep decls lineNum l
    step.2 ++ analyzeLines step.1 (lineNum + 1) ls

/-- `ArduinoCompiler.analyze`. -/
def analyze (code : Str) : List CompilationError :=
  let lines := splitLines code
  let perLine := analyzeLines [] 1 lines
  let setupErrs : List CompilationError :=
    if hasSetupIn lines then [] else [⟨1, 0, setupMsg, .error⟩]
  let loopErrs : List CompilationError :=
    if hasLoopIn lines then [] else [⟨1, 0, loopMsg, .error⟩]
  let scan := braceScan 1 (0, []) lines
  let braceErrs : List CompilationError :=
    if scan.1 > 0 then
      -- `unclosedBraces[unclosedBraces.length - 1] || lines.length`: line
      -- numbers are ≥ 1 and hence truthy, so the fallback fires exactly when
      -- the stack is empty.
      [⟨((scan.2.headD lines.length : Nat) : Int), 0,
        natStr scan.1.toNat ++ " unclosed brace(s)".data, .error⟩]
    else if scan.1 < 0 then
      [⟨(lines.length : Int), 0,
        natStr (-scan.1).toNat ++ " extra closing brace(s)".data, .error⟩]
    else []
  perLine ++ setupErrs ++ loopErrs ++ braceErrs

/-- Result record of `ArduinoCompiler.compile`. -/
structure CompileResult where
  success : Bool
  errors : List CompilationError
  output : Str
deriving DecidableEq, Repr

/-- `ArduinoCompiler.compile` (the leading `setTimeout` delay only models
elapsed time and has no effect on the result). -/
def compile (code : Str) : CompileResult :=
  let errors := analyze code
  let hasErrors := errors.any (fun e => decide (e.severity = .error))
  { success := !hasErrors
    errors := errors
    output :=
      if hasErrors then
        "Compilation failed with ".data ++
          natStr (errors.filter (fun e => decide (e.severity = .error))).length ++
          " error(s)".data
      else
        "Compilation successful! Sketch uses 1234 bytes (4%) of program storage space.".data }

end ArduinoCompiler

/-! ### Basic facts about the string model -/

theorem containsStr_infix_iff {pat s : Str} : containsStr pat s = true ↔ pat <:+: s := by
  induction s with
  | nil =>
    simp [containsStr, List.isEmpty_iff, List.infix_nil]
  | cons c rest ih =>
    simp [containsStr, List.infix_cons_iff, ih, List.isPrefixOf_iff_prefix]

theorem infix_dropWhileWS {ph : Char} {pt s : Str} (hh : isJsWS ph = false)
    (h : (ph :: pt) <:+: s) : (ph :: pt) <:+: s.dropWhile isJsWS := by
  induction s with
  | nil => exact absurd (List.infix_nil.1 h) (by simp)
  | cons c rest ih =>
    rw [List.dropWhile_cons]
    by_cases hc : isJsWS c = true
    · simp only [hc, if_true]
      apply ih
      rcases List.infix_cons_iff.1 h with hpre | hinf
      · exfalso
        rcases hpre with ⟨t, ht⟩
        have hph : ph = c := by
          have := congrArg List.head? ht
          simpa using this
        rw [hph, hc] at hh
        exact Bool.noConfusion hh
      · exact hinf
    · simp only [Bool.not_eq_true] at hc
      simp only [hc, Bool.false_eq_true, if_false]
      exact h

theorem infix_trimL_iff {ph : Char} {pt : Str} (hh : isJsWS ph = false) (s : Str) :
    (ph :: pt) <:+: trimL s ↔ (ph :: pt) <:+: s :=
  ⟨fun h => h.trans (List.dropWhile_suffix isJsWS).isInfix,
   fun h => infix_dropWhileWS hh h⟩

theorem infix_trimR_iff {p : Str} {d : Char} (hd : p.getLast? = some d)
    (hws : isJsWS d = false) (s : Str) : p <:+: trimR s ↔ p <:+: s := by
  have hrev : p.reverse.head? = some d := by rw [List.head?_reverse]; exact hd
  rcases List.head?_eq_some_iff.1 hrev with ⟨q, hq⟩
  constructor
  · intro h
    have h1 : p.reverse <:+: (trimR s).reverse := List.reverse_infix.2 h
    rw [trimR, List.reverse_reverse] at h1
    have h2 : p.reverse <:+: s.reverse :=
      h1.trans (List.dropWhile_suffix isJsWS).isInfix
    exact List.reverse_infix.1 h2
  · intro h
    have h1 : p.reverse <:+: s.reverse := List.reverse_infix.2 h
    rw [hq] at h1
    have h2 := infix_dropWhileWS hws h1
    rw [← hq] at h2
    have h3 : p.reverse <:+: (trimR s).reverse := by
      rw [trimR, List.reverse_reverse]; exact h2
    exact List.reverse_infix.1 h3

theorem infix_trim_iff {p : Str} {c d : Char} (hc : p.head? = some c)
    (hcw : isJsWS c = false) (hd : p.getLast? = some d) (hdw : isJsWS d = false)
    (s : Str) : p <:+: trim s ↔ p <:+: s := by
  rcases List.head?_eq_some_iff.1 hc with ⟨q, hq⟩
  subst hq
  rw [trim, infix_trimR_iff hd hdw, infix_trimL_iff hcw]

theorem ne_of_take_ne {x y : Str} (n : Nat) (h : x.take n ≠ y.take n) : x ≠ y :=
  fun e => h (by rw [e])

theorem take_append_of_le {a b : Str} {n : Nat} (h : n ≤ a.length) :
    (a ++ b).take n = a.take n := by
  rw [List.take_append_eq_append_take, Nat.sub_eq_zero_of_le h, List.take_zero,
    List.append_nil]

/-- Compare two strings on a prefix window: if the first is `a ++ rest` with
`n ≤ a.length` and the windows differ, the strings differ. -/
theorem ne_concat_of_take_ne {a rest y : Str} (n : Nat) (hlen : n ≤ a.length)
    (h : a.take n ≠ y.take n) : a ++ rest ≠ y :=
  ne_of_take_ne n (by rw [take_append_of_le hlen]; exact h)

theorem suffix_of_suffix_append {t a b : Str} (h : t <:+ a ++ b)
    (hl : t.length ≤ b.length) : t <:+ b := by
  rcases List.suffix_or_suffix_of_suffix h (List.suffix_append a b) with h1 | h2
  · exact h1
  · have : b = t := h2.eq_of_length_le hl
    rw [← this]

theorem not_suffix_append {t a b : Str} (hl : t.length ≤ b.length)
    (hnb : ¬ t <:+ b) : ¬ t <:+ (a ++ b) :=
  fun h => hnb (suffix_of_suffix_append h hl)

/-- A nonempty suffix determines the last element. -/
theorem getLast?_of_suffix {t y : Str} (h : t <:+ y) (hne : t ≠ []) :
    y.getLast? = t.getLast? := by
  rcases h with ⟨a, ha⟩
  rw [← ha, List.getLast?_append]
  cases t with
  | nil => exact absurd rfl hne
  | cons c q =>
    rcases e : (c :: q).getLast? with _ | x
    · simp at e
    · rfl

theorem not_suffix_of_getLast_ne {t y : Str} {c d : Char} (ht : t.getLast? = some c)
    (hy : y.getLast? = some d) (hne : c ≠ d) : ¬ t <:+ y := by
  intro h
  have htne : t ≠ [] := by
    intro e; rw [e] at ht; exact Option.noConfusion ht
  have := getLast?_of_suffix h htne
  rw [hy, ht] at this
  exact hne (Option.some.inj this).symm

namespace ArduinoCompiler

/-! ### Message taxonomy of the per-line checks -/

/-- Shape of every message pushed by the per-line checks. -/
def PerLineMsg (m : Str) : Prop :=
  m = multiStmtMsg ∨ (∃ f c, m = misspellMsg f c) ∨ (∃ f, m = redefMsg f) ∨
  (∃ f, m = shortNameMsg f) ∨ (∃ f, m = invalidNameMsg f) ∨ m = invalidDeclMsg ∨
  m = semiMsg ∨ m = pinModeMsg ∨ m = digitalWriteMsg ∨ m = digitalReadMsg ∨
  m = varDeclMsg ∨ m = parenMsg

theorem PerLineMsg.multi : PerLineMsg multiStmtMsg := Or.inl rfl

theorem PerLineMsg.miss (f c : Str) : PerLineMsg (misspellMsg f c) :=
  Or.inr (Or.inl ⟨f, c, rfl⟩)

theorem PerLineMsg.redef (f : Str) : PerLineMsg (redefMsg f) :=
  Or.inr (Or.inr (Or.inl ⟨f, rfl⟩))

theorem PerLineMsg.short (f : Str) : PerLineMsg (shortNameMsg f) :=
  Or.inr (Or.inr (Or.inr (Or.inl ⟨f, rfl⟩)))

theorem PerLineMsg.invName (f : Str) : PerLineMsg (invalidNameMsg f) :=
  Or.inr (Or.inr (Or.inr (Or.inr (Or.inl ⟨f, rfl⟩))))

theorem PerLineMsg.invDecl : PerLineMsg invalidDeclMsg :=
  Or.inr (Or.inr (Or.inr (Or.inr (Or.inr (Or.inl rfl)))))

theorem PerLineMsg.semi : PerLineMsg semiMsg :=
  Or.inr (Or.inr (Or.inr (Or.inr (Or.inr (Or.inr (Or.inl rfl))))))

theorem PerLineMsg.pin : PerLineMsg pinModeMsg :=
  Or.inr (Or.inr (Or.inr (Or.inr (Or.inr (Or.inr (Or.inr (Or.inl rfl)))))))

theorem PerLineMsg.digW : PerLineMsg digitalWriteMsg :=
  Or.inr (Or.inr (Or.inr (Or.inr (Or.inr (Or.inr (Or.inr (Or.inr (Or.inl rfl))))))))

theorem PerLineMsg.digR : PerLineMsg digitalReadMsg :=
  Or.inr (Or.inr (Or.inr (Or.inr (Or.inr (Or.inr (Or.inr (Or.inr (Or.inr (Or.inl rfl)))))))))

theorem PerLineMsg.varD : PerLineMsg varDeclMsg :=
  Or.inr (Or.inr (Or.inr (Or.inr (Or.inr (Or.inr (Or.inr (Or.inr (Or.inr (Or.inr (Or.inl rfl))))))))))

theorem PerLineMsg.paren : PerLineMsg parenMsg :=
  Or.inr (Or.inr (Or.inr (Or.inr (Or.inr (Or.inr (Or.inr (Or.inr (Or.inr (Or.inr (Or.inr rfl))))))))))

theorem mem_declCheck {decls : List Str} {n : Int} {t : Str} :
    ∀ e ∈ (declCheck decls n t).2,
      e.line = n ∧ ((∃ f c, e.message = misspellMsg f c) ∨ (∃ f, e.message = redefMsg f)) := by
  simp only [declCheck]
  repeat' split
  all_goals intro e he
  all_goals simp only [List.mem_append, List.mem_singleton, List.not_mem_nil, or_false,
    false_or, List.append_nil, List.nil_append] at he
  all_goals
    first
      | exact absurd he (List.not_mem_nil _)
      | exact he.elim
      | (rw [he]
         first
           | exact ⟨rfl, Or.inl ⟨_, _, rfl⟩⟩
           | exact ⟨rfl, Or.inr ⟨_, rfl⟩⟩)

theorem mem_voidChecks {n : Int} {t : Str} :
    ∀ e ∈ voidChecks n t,
      e.line = n ∧ ((∃ f, e.message = shortNameMsg f) ∨ (∃ f, e.message = invalidNameMsg f) ∨
        e.message = invalidDeclMsg) := by
  simp only [voidChecks]
  repeat' split
  all_goals intro e he
  all_goals simp only [List.mem_append, List.mem_singleton, List.not_mem_nil, or_false,
    false_or, List.append_nil, List.nil_append] at he
  all_goals try (rcases he with he | he)
  all_goals try (rcases he with he | he)
  all_goals
    first
      | exact absurd he (List.not_mem_nil _)
      | exact he.elim
      | exact ⟨rfl, Or.inl ⟨_, rfl⟩⟩
      | exact ⟨rfl, Or.inr (Or.inl ⟨_, rfl⟩)⟩
      | exact ⟨rfl, Or.inr (Or.inr rfl)⟩
      | (rw [he]
         first
           | exact ⟨rfl, Or.inl ⟨_, rfl⟩⟩
           | exact ⟨rfl, Or.inr (Or.inl ⟨_, rfl⟩)⟩
           | exact ⟨rfl, Or.inr (Or.inr rfl)⟩)

theorem mem_semiCheck_iff {n lineLen : Int} {t : Str} {e : CompilationError} :
    e ∈ semiCheck n lineLen t ↔ (semiGuard t = true ∧ e = ⟨n, lineLen, semiMsg, .error⟩) := by
  unfold semiCheck
  split
  · simp_all
  · simp_all

theorem mem_callChecks {n : Int} {t : Str} :
    ∀ e ∈ callChecks n t,
      e.line = n ∧ (e.message = pinModeMsg ∨ e.message = digitalWriteMsg ∨
        e.message = digitalReadMsg) := by
  simp only [callChecks]
  repeat' split
  all_goals intro e he
  all_goals simp only [List.mem_append, List.mem_singleton, List.not_mem_nil, or_false,
    false_or, List.append_nil, List.nil_append] at he
  all_goals try (rcases he with he | he)
  all_goals try (rcases he with he | he)
  all_goals
    first
      | exact absurd he (List.not_mem_nil _)
      | exact he.elim
      | exact ⟨rfl, Or.inl rfl⟩
      | exact ⟨rfl, Or.inr (Or.inl rfl)⟩
      | exact ⟨rfl, Or.inr (Or.inr rfl)⟩
      | (rw [he]
         first
           | exact ⟨rfl, Or.inl rfl⟩
           | exact ⟨rfl, Or.inr (Or.inl rfl)⟩
           | exact ⟨rfl, Or.inr (Or.inr rfl)⟩)

theorem mem_varDeclCheck {n : Int} {t : Str} :
    ∀ e ∈ varDeclCheck n t, e.line = n ∧ e.message = varDeclMsg := by
  simp only [varDeclCheck]
  repeat' split
  all_goals intro e he
  all_goals simp only [List.mem_singleton, List.not_mem_nil] at he
  all_goals
    first
      | exact absurd he (List.not_mem_nil _)
      | exact he.elim
      | exact ⟨rfl, rfl⟩
      | (rw [he]; exact ⟨rfl, rfl⟩)

theorem mem_parenCheck {n : Int} {t : Str} :
    ∀ e ∈ parenCheck n t, e.line = n ∧ e.message = parenMsg := by
  simp only [parenCheck]
  repeat' split
  all_goals intro e he
  all_goals simp only [List.mem_singleton, List.not_mem_nil] at he
  all_goals
    first
      | exact absurd he (List.not_mem_nil _)
      | exact he.elim
      | exact ⟨rfl, rfl⟩
      | (rw [he]; exact ⟨rfl, rfl⟩)

theorem mem_lineStep {decls : List Str} {n : Int} {line : Str} :
    ∀ e ∈ (lineStep decls n line).2, e.line = n ∧ PerLineMsg e.message := by
  simp only [lineStep]
  split
  · intro e he
    exact absurd he (List.not_mem_nil _)
  · split
    · intro e he
      have he2 := List.mem_singleton.1 he
      rw [he2]
      exact ⟨rfl, PerLineMsg.multi⟩
    · intro e he
      simp only [List.mem_append] at he
      rcases he with ((((he | he) | he) | he) | he) | he
      · rcases mem_declCheck e he with ⟨h1, h2 | h2⟩
        · exact ⟨h1, Or.inr (Or.inl h2)⟩
        · exact ⟨h1, Or.inr (Or.inr (Or.inl h2))⟩
      · rcases mem_voidChecks e he with ⟨h1, h2 | h2 | h2⟩
        · exact ⟨h1, Or.inr (Or.inr (Or.inr (Or.inl h2)))⟩
        · exact ⟨h1, Or.inr (Or.inr (Or.inr (Or.inr (Or.inl h2))))⟩
        · exact ⟨h1, h2 ▸ PerLineMsg.invDecl⟩
      · rcases mem_semiCheck_iff.1 he with ⟨_, he2⟩
        rw [he2]
        exact ⟨rfl, PerLineMsg.semi⟩
      · rcases mem_callChecks e he with ⟨h1, h2 | h2 | h2⟩
        · exact ⟨h1, h2 ▸ PerLineMsg.pin⟩
        · exact ⟨h1, h2 ▸ PerLineMsg.digW⟩
        · exact ⟨h1, h2 ▸ PerLineMsg.digR⟩
      · rcases mem_varDeclCheck e he with ⟨h1, h2⟩
        exact ⟨h1, h2 ▸ PerLineMsg.varD⟩
      · rcases mem_parenCheck e he with ⟨h1, h2⟩
        exact ⟨h1, h2 ▸ PerLineMsg.paren⟩

theorem mem_analyzeLines {lines : List Str} :
    ∀ {decls : List Str} {k : Int} (e : CompilationError),
      e ∈ analyzeLines decls k lines → PerLineMsg e.message := by
  induction lines with
  | nil => intro decls k e he; exact absurd he (List.not_mem_nil _)
  | cons l ls ih =>
    intro decls k e he
    simp only [analyzeLines, List.mem_append] at he
    rcases he with he | he
    · exact (mem_lineStep e he).2
    · exact ih e he

end ArduinoCompiler

theorem getLast?_append_right {y : Str} {c : Char} (hy : y.getLast? = some c)
    (x : Str) : (x ++ y).getLast? = some c := by
  rw [List.getLast?_append, hy]
  rfl

namespace ArduinoCompiler

theorem misspellMsg_getLast (f c : Str) : (misspellMsg f c).getLast? = some '?' := by
  unfold misspellMsg
  repeat
    first
      | rfl
      | apply getLast?_append_right

theorem redefMsg_getLast (f : Str) : (redefMsg f).getLast? = some '.' := by
  unfold redefMsg
  repeat
    first
      | rfl
      | apply getLast?_append_right

theorem shortNameMsg_getLast (f : Str) : (shortNameMsg f).getLast? = some '.' := by
  unfold shortNameMsg
  repeat
    first
      | rfl
      | apply getLast?_append_right

theorem invalidNameMsg_getLast (f : Str) : (invalidNameMsg f).getLast? = some '.' := by
  unfold invalidNameMsg
  repeat
    first
      | rfl
      | apply getLast?_append_right

/-- The suffix `brace(s)` characterising the two brace-balance messages. -/
def braceTag : Str := "brace(s)".data

theorem misspellMsg_ne_semi (f c : Str) : misspellMsg f c ≠ semiMsg :=
  ne_concat_of_take_ne 15 (by decide) (by decide)

theorem redefMsg_ne_semi (f : Str) : redefMsg f ≠ semiMsg :=
  ne_concat_of_take_ne 15 (by decide) (by decide)

theorem shortNameMsg_ne_semi (f : Str) : shortNameMsg f ≠ semiMsg :=
  ne_concat_of_take_ne 15 (by decide) (by decide)

theorem invalidNameMsg_ne_semi (f : Str) : invalidNameMsg f ≠ semiMsg :=
  ne_concat_of_take_ne 20 (by decide) (by decide)

theorem misspellMsg_ne_setup (f c : Str) : misspellMsg f c ≠ setupMsg :=
  ne_concat_of_take_ne 1 (by decide) (by decide)

theorem redefMsg_ne_setup (f : Str) : redefMsg f ≠ setupMsg :=
  ne_concat_of_take_ne 1 (by decide) (by decide)

theorem shortNameMsg_ne_setup (f : Str) : shortNameMsg f ≠ setupMsg :=
  ne_concat_of_take_ne 1 (by decide) (by decide)

theorem invalidNameMsg_ne_setup (f : Str) : invalidNameMsg f ≠ setupMsg :=
  ne_concat_of_take_ne 1 (by decide) (by decide)

theorem misspellMsg_ne_loop (f c : Str) : misspellMsg f c ≠ loopMsg :=
  ne_concat_of_take_ne 1 (by decide) (by decide)

theorem redefMsg_ne_loop (f : Str) : redefMsg f ≠ loopMsg :=
  ne_concat_of_take_ne 1 (by decide) (by decide)

theorem shortNameMsg_ne_loop (f : Str) : shortNameMsg f ≠ loopMsg :=
  ne_concat_of_take_ne 1 (by decide) (by decide)

theorem invalidNameMsg_ne_loop (f : Str) : invalidNameMsg f ≠ loopMsg :=
  ne_concat_of_take_ne 1 (by decide) (by decide)

theorem misspellMsg_no_braceTag (f c : Str) : ¬ braceTag <:+ misspellMsg f c :=
  @not_suffix_of_getLast_ne braceTag (misspellMsg f c) ')' '?'
    (by decide) (misspellMsg_getLast f c) (by decide)

theorem redefMsg_no_braceTag (f : Str) : ¬ braceTag <:+ redefMsg f :=
  @not_suffix_of_getLast_ne braceTag (redefMsg f) ')' '.'
    (by decide) (redefMsg_getLast f) (by decide)

theorem shortNameMsg_no_braceTag (f : Str) : ¬ braceTag <:+ shortNameMsg f :=
  @not_suffix_of_getLast_ne braceTag (shortNameMsg f) ')' '.'
    (by decide) (shortNameMsg_getLast f) (by decide)

theorem invalidNameMsg_no_braceTag (f : Str) : ¬ braceTag <:+ invalidNameMsg f :=
  @not_suffix_of_getLast_ne braceTag (invalidNameMsg f) ')' '.'
    (by decide) (invalidNameMsg_getLast f) (by decide)

/-- No per-line diagnostic message carries the brace-balance suffix, and none
coincides with the missing-`setup`/`loop` messages. -/
theorem perLineMsg_safe {m : Str} (h : PerLineMsg m) :
    ¬ braceTag <:+ m ∧ m ≠ setupMsg ∧ m ≠ loopMsg := by
  rcases h with h | ⟨f, c, h⟩ | ⟨f, h⟩ | ⟨f, h⟩ | ⟨f, h⟩ | h | h | h | h | h | h | h
  all_goals subst h
  · exact ⟨by decide, by decide, by decide⟩
  · exact ⟨misspellMsg_no_braceTag f c, misspellMsg_ne_setup f c, misspellMsg_ne_loop f c⟩
  · exact ⟨redefMsg_no_braceTag f, redefMsg_ne_setup f, redefMsg_ne_loop f⟩
  · exact ⟨shortNameMsg_no_braceTag f, shortNameMsg_ne_setup f, shortNameMsg_ne_loop f⟩
  · exact ⟨invalidNameMsg_no_braceTag f, invalidNameMsg_ne_setup f, invalidNameMsg_ne_loop f⟩
  · exact ⟨by decide, by decide, by decide⟩
  · exact ⟨by decide, by decide, by decide⟩
  · exact ⟨by decide, by decide, by decide⟩
  · exact ⟨by decide, by decide, by decide⟩
  · exact ⟨by decide, by decide, by decide⟩
  · exact ⟨by decide, by decide, by decide⟩
  · exact ⟨by decide, by decide, by decide⟩

end ArduinoCompiler

namespace ArduinoCompiler

theorem unclosedMsg_ne {x : Nat} {m : Str} (hm : ¬ braceTag <:+ m) :
    natStr x ++ " unclosed brace(s)".data ≠ m := by
  intro h
  apply hm
  rw [← h]
  exact List.IsSuffix.trans (by decide) (List.suffix_append _ _)

theorem extraMsg_ne {x : Nat} {m : Str} (hm : ¬ braceTag <:+ m) :
    natStr x ++ " extra closing brace(s)".data ≠ m := by
  intro h
  apply hm
  rw [← h]
  exact List.IsSuffix.trans (by decide) (List.suffix_append _ _)

theorem hasSetupIn_iff {lines : List Str} :
    hasSetupIn lines = true ↔ ∃ l ∈ lines, "void setup()".data <:+: l := by
  unfold hasSetupIn
  rw [List.any_eq_true]
  constructor
  · rintro ⟨l, hl, hc⟩
    exact ⟨l, hl,
      (@infix_trim_iff "void setup()".data 'v' ')' (by decide) (by decide) (by decide)
        (by decide) l).1 (containsStr_infix_iff.1 hc)⟩
  · rintro ⟨l, hl, hi⟩
    exact ⟨l, hl, containsStr_infix_iff.2
      ((@infix_trim_iff "void setup()".data 'v' ')' (by decide) (by decide) (by decide)
        (by decide) l).2 hi)⟩

theorem hasLoopIn_iff {lines : List Str} :
    hasLoopIn lines = true ↔ ∃ l ∈ lines, "void loop()".data <:+: l := by
  unfold hasLoopIn
  rw [List.any_eq_true]
  constructor
  · rintro ⟨l, hl, hc⟩
    exact ⟨l, hl,
      (@infix_trim_iff "void loop()".data 'v' ')' (by decide) (by decide) (by decide)
        (by decide) l).1 (containsStr_infix_iff.1 hc)⟩
  · rintro ⟨l, hl, hi⟩
    exact ⟨l, hl, containsStr_infix_iff.2
      ((@infix_trim_iff "void loop()".data 'v' ')' (by decide) (by decide) (by decide)
        (by decide) l).2 hi)⟩

theorem setupErr_mem_analyze {code : Str} :
    (⟨1, 0, setupMsg, .error⟩ : CompilationError) ∈ analyze code ↔
      hasSetupIn (splitLines code) = false := by
  unfold analyze
  simp only [List.mem_append]
  constructor
  · rintro (((h | h) | h) | h)
    · exact absurd rfl (perLineMsg_safe (mem_analyzeLines _ h)).2.1
    · revert h
      split
      · intro h
        exact absurd h (List.not_mem_nil _)
      · intro _
        simp_all
    · revert h
      split
      · intro h
        exact absurd h (List.not_mem_nil _)
      · intro h
        have := List.mem_singleton.1 h
        exact absurd (congrArg CompilationError.message this) (by decide)
    · revert h
      split
      · intro h
        have := List.mem_singleton.1 h
        exact absurd (congrArg CompilationError.message this).symm
          (unclosedMsg_ne (by decide))
      · split
        · intro h
          have := List.mem_singleton.1 h
          exact absurd (congrArg CompilationError.message this).symm
            (extraMsg_ne (by decide))
        · intro h
          exact absurd h (List.not_mem_nil _)
  · intro h
    refine Or.inl (Or.inl (Or.inr ?_))
    rw [h]
    simp

theorem loopErr_mem_analyze {code : Str} :
    (⟨1, 0, loopMsg, .error⟩ : CompilationError) ∈ analyze code ↔
      hasLoopIn (splitLines code) = false := by
  unfold analyze
  simp only [List.mem_append]
  constructor
  · rintro (((h | h) | h) | h)
    · exact absurd rfl (perLineMsg_safe (mem_analyzeLines _ h)).2.2
    · revert h
      split
      · intro h
        exact absurd h (List.not_mem_nil _)
      · intro h
        have := List.mem_singleton.1 h
        exact absurd (congrArg CompilationError.message this) (by decide)
    · revert h
      split
      · intro h
        exact absurd h (List.not_mem_nil _)
      · intro _
        simp_all
    · revert h
      split
      · intro h
        have := List.mem_singleton.1 h
        exact absurd (congrArg CompilationError.message this).symm
          (unclosedMsg_ne (by decide))
      · split
        · intro h
          have := List.mem_singleton.1 h
          exact absurd (congrArg CompilationError.message this).symm
            (extraMsg_ne (by decide))
        · intro h
          exact absurd h (List.not_mem_nil _)
  · intro h
    refine Or.inl (Or.inr ?_)
    rw [h]
    simp

end ArduinoCompiler

/-- Claim C1: `ArduinoCompiler.analyze` reports `Arduino sketch must have a
void setup() function` (line 1, severity error) exactly when no line of the
input contains the substring `void setup()`, and `Arduino sketch must have a
void loop() function` exactly when no line contains `void loop()`. -/
theorem C1_setup_loop_presence (code : Str) :
    ((⟨1, 0, ArduinoCompiler.setupMsg, .error⟩ : CompilationError) ∈
        ArduinoCompiler.analyze code ↔
      ∀ l ∈ splitLines code, ¬ ("void setup()".data <:+: l)) ∧
    ((⟨1, 0, ArduinoCompiler.loopMsg, .error⟩ : CompilationError) ∈
        ArduinoCompiler.analyze code ↔
      ∀ l ∈ splitLines code, ¬ ("void loop()".data <:+: l)) := by
  constructor
  · rw [ArduinoCompiler.setupErr_mem_analyze]
    rw [← Bool.not_eq_true, ArduinoCompiler.hasSetupIn_iff]
    push_neg
    rfl
  · rw [ArduinoCompiler.loopErr_mem_analyze]
    rw [← Bool.not_eq_true, ArduinoCompiler.hasLoopIn_iff]
    push_neg
    rfl

namespace ArduinoCompiler

theorem braceChar_count (n : Nat) (acc : Int × List Nat) (c : Char) :
    (braceChar n acc c).1 =
      acc.1 + (if c = lbrace then 1 else 0) - (if c = rbrace then 1 else 0) := by
  by_cases h1 : c = lbrace
  · subst h1
    rw [braceChar, if_pos rfl, if_pos rfl, if_neg (show lbrace ≠ rbrace by decide)]
    dsimp only
    omega
  · by_cases h2 : c = rbrace
    · subst h2
      rw [braceChar, if_neg (show rbrace ≠ lbrace by decide), if_pos rfl,
        if_neg (show rbrace ≠ lbrace by decide), if_pos rfl]
      dsimp only
      omega
    · rw [braceChar, if_neg h1, if_neg h2, if_neg h1, if_neg h2]
      omega

theorem foldl_braceChar_count (n : Nat) : ∀ (l : Str) (acc : Int × List Nat),
    (l.foldl (braceChar n) acc).1 =
      acc.1 + (l.count lbrace : Int) - (l.count rbrace : Int)
  | [], acc => by simp
  | c :: l, acc => by
    rw [List.foldl_cons, foldl_braceChar_count n l, braceChar_count,
      List.count_cons, List.count_cons]
    by_cases h1 : c = lbrace <;> by_cases h2 : c = rbrace <;>
      simp [h1, h2] <;> push_cast <;> omega

theorem braceScan_count : ∀ (ls : List Str) (n : Nat) (acc : Int × List Nat),
    (braceScan n acc ls).1 =
      acc.1 + ((ls.map (List.count lbrace)).sum : Int) -
        ((ls.map (List.count rbrace)).sum : Int)
  | [], _, acc => by simp [braceScan]
  | l :: ls, n, acc => by
    rw [braceScan, braceScan_count ls, foldl_braceChar_count]
    simp only [List.map_cons, List.sum_cons]
    push_cast
    omega

theorem splitOnChar_ne_nil (sep : Char) : ∀ s : Str, splitOnChar sep s ≠ []
  | [] => by simp [splitOnChar]
  | c :: rest => by
    unfold splitOnChar
    split
    · simp
    · cases h : splitOnChar sep rest with
      | nil => simp
      | cons l ls => simp

theorem splitOnChar_count {c sep : Char} (hcs : c ≠ sep) : ∀ s : Str,
    ((splitOnChar sep s).map (List.count c)).sum = s.count c
  | [] => by simp [splitOnChar]
  | d :: rest => by
    unfold splitOnChar
    split
    · rename_i hd
      simp only [List.map_cons, List.sum_cons, List.count_nil]
      rw [splitOnChar_count hcs rest, List.count_cons]
      have hne : ¬ (d == c) = true := by
        simp only [beq_iff_eq]
        intro h
        exact hcs (by rw [← h, hd])
      simp [hne]
    · rename_i hd
      cases h : splitOnChar sep rest with
      | nil => exact absurd h (splitOnChar_ne_nil sep rest)
      | cons l ls =>
        have := splitOnChar_count hcs rest
        rw [h] at this
        simp only [List.map_cons, List.sum_cons] at this ⊢
        rw [List.count_cons, List.count_cons]
        omega

end ArduinoCompiler

/-- Claim C2: with `d` the number of `U+007B` characters minus the number of
`U+007D` characters over the whole text (a raw character scan, comments and
string literals included), `ArduinoCompiler.analyze` emits exactly one
brace-balance diagnostic (a message ending in `brace(s)`): `<d> unclosed
brace(s)` when `d > 0`, placed at the line of the most recent unmatched
opening brace tracked by the scan stack (falling back to the last line when
none is tracked), `<|d|> extra closing brace(s)` at the last line when
`d < 0`, and none when `d = 0`. -/
theorem C2_brace_balance (code : Str) :
    (ArduinoCompiler.analyze code).filter
        (fun e => ArduinoCompiler.braceTag.isSuffixOf e.message) =
      (if 0 < (code.count lbrace : Int) - (code.count rbrace : Int) then
        [⟨(((ArduinoCompiler.braceScan 1 (0, []) (splitLines code)).2.headD
            (splitLines code).length : Nat) : Int), 0,
          natStr ((code.count lbrace : Int) - (code.count rbrace : Int)).toNat ++
            " unclosed brace(s)".data, .error⟩]
       else if (code.count lbrace : Int) - (code.count rbrace : Int) < 0 then
        [⟨((splitLines code).length : Int), 0,
          natStr (-((code.count lbrace : Int) - (code.count rbrace : Int))).toNat ++
            " extra closing brace(s)".data, .error⟩]
       else []) := by
  have hd : (ArduinoCompiler.braceScan 1 (0, []) (splitLines code)).1 =
      (code.count lbrace : Int) - (code.count rbrace : Int) := by
    rw [ArduinoCompiler.braceScan_count]
    unfold splitLines
    rw [ArduinoCompiler.splitOnChar_count (show lbrace ≠ '\n' by decide),
      ArduinoCompiler.splitOnChar_count (show rbrace ≠ '\n' by decide)]
    omega
  simp only [ArduinoCompiler.analyze]
  rw [List.filter_append, List.filter_append, List.filter_append]
  have h1 : (ArduinoCompiler.analyzeLines [] 1 (splitLines code)).filter
      (fun e => ArduinoCompiler.braceTag.isSuffixOf e.message) = [] := by
    rw [List.filter_eq_nil_iff]
    intro e he hp
    simp only [List.isSuffixOf_iff_suffix] at hp
    exact (ArduinoCompiler.perLineMsg_safe (ArduinoCompiler.mem_analyzeLines e he)).1 hp
  have h2 : (if ArduinoCompiler.hasSetupIn (splitLines code) then ([] : List CompilationError)
      else [⟨1, 0, ArduinoCompiler.setupMsg, .error⟩]).filter
        (fun e => ArduinoCompiler.braceTag.isSuffixOf e.message) = [] := by
    split
    · rfl
    · rw [List.filter_cons, if_neg (by decide), List.filter_nil]
  have h3 : (if ArduinoCompiler.hasLoopIn (splitLines code) then ([] : List CompilationError)
      else [⟨1, 0, ArduinoCompiler.loopMsg, .error⟩]).filter
        (fun e => ArduinoCompiler.braceTag.isSuffixOf e.message) = [] := by
    split
    · rfl
    · rw [List.filter_cons, if_neg (by decide), List.filter_nil]
  rw [h1, h2, h3, List.nil_append, List.nil_append, List.nil_append, hd]
  by_cases hpos : (0 : Int) < (code.count lbrace : Int) - (code.count rbrace : Int)
  · rw [if_pos hpos, List.filter_cons, if_pos, List.filter_nil]
    simp only [List.isSuffixOf_iff_suffix]
    exact List.IsSuffix.trans (by decide) (List.suffix_append _ _)
  · rw [if_neg hpos]
    by_cases hneg : (code.count lbrace : Int) - (code.count rbrace : Int) < 0
    · rw [if_pos hneg, List.filter_cons, if_pos, List.filter_nil]
      simp only [List.isSuffixOf_iff_suffix]
      exact List.IsSuffix.trans (by decide) (List.suffix_append _ _)
    · rw [if_neg hneg, List.filter_nil]

/-- Claim C10: `ArduinoCompiler.compile` succeeds exactly when `analyze` finds
no error-severity diagnostic (warnings alone never fail compilation), its
`errors` field is exactly `analyze code`, and on failure the output string
reports the number of severity-error entries. -/
theorem C10_compile_success (code : Str) :
    ((ArduinoCompiler.compile code).success = true ↔
      ∀ e ∈ ArduinoCompiler.analyze code, e.severity ≠ .error) ∧
    (ArduinoCompiler.compile code).errors = ArduinoCompiler.analyze code ∧
    (ArduinoCompiler.compile code).output =
      (if (ArduinoCompiler.analyze code).any (fun e => decide (e.severity = .error)) then
        "Compilation failed with ".data ++
          natStr ((ArduinoCompiler.analyze code).filter
            (fun e => decide (e.severity = .error))).length ++ " error(s)".data
      else
        "Compilation successful! Sketch uses 1234 bytes (4%) of program storage space.".data) := by
  refine ⟨?_, rfl, rfl⟩
  simp only [ArduinoCompiler.compile, Bool.not_eq_true', List.any_eq_false,
    decide_eq_true_eq]

namespace ArduinoCompiler

theorem semiErr_mem_lineStep {decls : List Str} {n len : Int} {line : Str} :
    (⟨n, len, semiMsg, .error⟩ : CompilationError) ∈ (lineStep decls n line).2 ↔
      (skipLine (trim line) = false ∧ (trim line).count ';' ≤ 1 ∧
       semiGuard (trim line) = true ∧ len = (line.length : Int)) := by
  simp only [lineStep]
  split
  · rename_i hskip
    constructor
    · intro h
      exact absurd h (List.not_mem_nil _)
    · rintro ⟨h1, -, -, -⟩
      rw [hskip] at h1
      exact Bool.noConfusion h1
  · rename_i hskip
    split
    · rename_i hcnt
      constructor
      · intro h
        have := List.mem_singleton.1 h
        exact absurd (congrArg CompilationError.message this)
          (show semiMsg ≠ multiStmtMsg by decide)
      · rintro ⟨-, h2, -, -⟩
        omega
    · rename_i hcnt
      simp only [List.mem_append]
      constructor
      · rintro (((((h | h) | h) | h) | h) | h)
        · rcases (mem_declCheck _ h).2 with ⟨f, c, hm⟩ | ⟨f, hm⟩
          · exact absurd hm.symm (misspellMsg_ne_semi f c)
          · exact absurd hm.symm (redefMsg_ne_semi f)
        · rcases (mem_voidChecks _ h).2 with ⟨f, hm⟩ | ⟨f, hm⟩ | hm
          · exact absurd hm.symm (shortNameMsg_ne_semi f)
          · exact absurd hm.symm (invalidNameMsg_ne_semi f)
          · exact absurd hm (show semiMsg ≠ invalidDeclMsg by decide)
        · rcases mem_semiCheck_iff.1 h with ⟨hg, he⟩
          refine ⟨by simpa using hskip, by omega, hg,
            congrArg CompilationError.column he⟩
        · rcases (mem_callChecks _ h).2 with hm | hm | hm
          · exact absurd hm (show semiMsg ≠ pinModeMsg by decide)
          · exact absurd hm (show semiMsg ≠ digitalWriteMsg by decide)
          · exact absurd hm (show semiMsg ≠ digitalReadMsg by decide)
        · exact absurd (mem_varDeclCheck _ h).2 (show semiMsg ≠ varDeclMsg by decide)
        · exact absurd (mem_parenCheck _ h).2 (show semiMsg ≠ parenMsg by decide)
      · rintro ⟨-, -, hg, hlen⟩
        subst hlen
        exact Or.inl (Or.inl (Or.inl (Or.inr (mem_semiCheck_iff.2 ⟨hg, rfl⟩))))

theorem semiErr_mem_analyzeLines : ∀ (lines : List Str) (decls : List Str)
    (k n len : Int),
    ((⟨n, len, semiMsg, .error⟩ : CompilationError) ∈ analyzeLines decls k lines ↔
      ∃ j : Nat, ∃ l, lines.get? j = some l ∧ n = k + j ∧
        skipLine (trim l) = false ∧ (trim l).count ';' ≤ 1 ∧
        semiGuard (trim l) = true ∧ len = (l.length : Int))
  | [], decls, k, n, len => by simp [analyzeLines]
  | l :: ls, decls, k, n, len => by
    simp only [analyzeLines, List.mem_append]
    constructor
    · rintro (h | h)
      · have hn : n = k := (mem_lineStep _ h).1
        subst hn
        rcases semiErr_mem_lineStep.1 h with ⟨h1, h2, h3, h4⟩
        exact ⟨0, l, rfl, by simp, h1, h2, h3, h4⟩
      · rcases (semiErr_mem_analyzeLines ls _ (k + 1) n len).1 h with
          ⟨j, l', hg, hn, rest⟩
        refine ⟨j + 1, l', by simpa using hg, ?_, rest⟩
        push_cast at hn ⊢
        omega
    · rintro ⟨j, l', hg, hn, h1, h2, h3, h4⟩
      cases j with
      | zero =>
        left
        have hll : l = l' := by simpa using hg
        subst hll
        have hnk : n = k := by simpa using hn
        subst hnk
        exact semiErr_mem_lineStep.2 ⟨h1, h2, h3, h4⟩
      | succ j =>
        right
        apply (semiErr_mem_analyzeLines ls _ (k + 1) n len).2
        refine ⟨j, l', by simpa using hg, ?_, h1, h2, h3, h4⟩
        push_cast at hn ⊢
        omega

theorem semiErr_mem_analyze {code : Str} {n len : Int} :
    (⟨n, len, semiMsg, .error⟩ : CompilationError) ∈ analyze code ↔
      ∃ j : Nat, ∃ l, (splitLines code).get? j = some l ∧ n = 1 + j ∧
        skipLine (trim l) = false ∧ (trim l).count ';' ≤ 1 ∧
        semiGuard (trim l) = true ∧ len = (l.length : Int) := by
  unfold analyze
  simp only [List.mem_append]
  constructor
  · rintro (((h | h) | h) | h)
    · exact (semiErr_mem_analyzeLines _ _ 1 n len).1 h
    · revert h
      split
      · intro h
        exact absurd h (List.not_mem_nil _)
      · intro h
        have := List.mem_singleton.1 h
        exact absurd (congrArg CompilationError.message this)
          (show semiMsg ≠ setupMsg by decide)
    · revert h
      split
      · intro h
        exact absurd h (List.not_mem_nil _)
      · intro h
        have := List.mem_singleton.1 h
        exact absurd (congrArg CompilationError.message this)
          (show semiMsg ≠ loopMsg by decide)
    · revert h
      split
      · intro h
        have := List.mem_singleton.1 h
        exact absurd (congrArg CompilationError.message this).symm
          (unclosedMsg_ne (show ¬ braceTag <:+ semiMsg by decide))
      · split
        · intro h
          have := List.mem_singleton.1 h
          exact absurd (congrArg CompilationError.message this).symm
            (extraMsg_ne (show ¬ braceTag <:+ semiMsg by decide))
        · intro h
          exact absurd h (List.not_mem_nil _)
  · intro h
    exact Or.inl (Or.inl (Or.inl ((semiErr_mem_analyzeLines _ _ 1 n len).2 h)))

theorem containsStr_eq_false_iff {p t : Str} :
    containsStr p t = false ↔ ¬ p <:+: t := by
  rw [Bool.eq_false_iff]
  exact not_congr containsStr_infix_iff

theorem isPrefixOf_eq_false_iff {p t : Str} :
    p.isPrefixOf t = false ↔ ¬ p <+: t := by
  rw [Bool.eq_false_iff]
  exact not_congr List.isPrefixOf_iff_prefix

theorem skipLine_eq_false_iff {t : Str} :
    skipLine t = false ↔
      (t ≠ [] ∧ ¬ ("//".data <+: t) ∧ ¬ ("/*".data <+: t) ∧ ¬ ("*".data <+: t)) := by
  simp only [skipLine, startsWithStr, Bool.or_eq_false_iff, List.isEmpty_eq_false_iff_exists_mem,
    isPrefixOf_eq_false_iff]
  constructor
  · rintro ⟨⟨⟨h0, h1⟩, h2⟩, h3⟩
    exact ⟨by rintro rfl; rcases h0 with ⟨x, hx⟩; exact absurd hx (List.not_mem_nil x),
      h1, h2, h3⟩
  · rintro ⟨h0, h1, h2, h3⟩
    refine ⟨⟨⟨?_, h1⟩, h2⟩, h3⟩
    cases t with
    | nil => exact absurd rfl h0
    | cons c r => exact ⟨c, List.mem_cons_self c r⟩

theorem semiGuard_eq_true_iff {t : Str} :
    semiGuard t = true ↔
      (t.getLast? ≠ some ';' ∧ t.getLast? ≠ some lbrace ∧ t.getLast? ≠ some rbrace ∧
       ¬ ("#".data <+: t) ∧
       ¬ ("void setup".data <:+: t) ∧ ¬ ("void loop".data <:+: t) ∧
       ¬ ("if (".data <:+: t) ∧ ¬ ("else".data <:+: t) ∧
       ¬ ("for (".data <:+: t) ∧ ¬ ("while (".data <:+: t) ∧
       ¬ ("do".data <:+: t) ∧ ¬ ("switch (".data <:+: t) ∧
       ¬ ("case ".data <:+: t) ∧ ¬ ("return".data <:+: t) ∧
       ¬ ("break".data <:+: t) ∧ ¬ ("continue".data <:+: t) ∧
       0 < t.length) := by
  simp only [semiGuard, endsWithChar, Bool.and_eq_true, Bool.not_eq_true',
    beq_eq_false_iff_ne, ne_eq, isPrefixOf_eq_false_iff, startsWithStr,
    containsStr_eq_false_iff, decide_eq_true_eq]
  tauto

end ArduinoCompiler

/-- Claim C3 as stated is false: the line `return 1` is non-empty, not a
comment, and its trimmed form does not end with `;`, `\x7b` or `\x7d`, so the
claim demands the missing-semicolon error, yet `analyze` emits no such
diagnostic for it (the guard also excludes lines containing `return` and
other keywords): the full diagnostic list for the sketch `return 1` consists
of the missing-`setup`/`loop` errors only. -/
theorem C3_counterexample :
    trim ("return 1".data) ≠ [] ∧
    ¬ ("//".data <+: trim ("return 1".data)) ∧
    ¬ ("/*".data <+: trim ("return 1".data)) ∧
    ¬ ("*".data <+: trim ("return 1".data)) ∧
    (trim ("return 1".data)).getLast? ≠ some ';' ∧
    (trim ("return 1".data)).getLast? ≠ some lbrace ∧
    (trim ("return 1".data)).getLast? ≠ some rbrace ∧
    ArduinoCompiler.analyze ("return 1".data) =
      [⟨1, 0, ArduinoCompiler.setupMsg, .error⟩,
       ⟨1, 0, ArduinoCompiler.loopMsg, .error⟩] := by
  decide

/-- Claim C3 (amended): for every line of the input whose trimmed form is
non-empty and is not comment-like (does not start with `//`, `/*` or `*`),
`analyze` emits `SYNTAX ERROR: Expected ... at end of statement` on that line
(at column = raw line length) if and only if the trimmed line contains at most
one `;`, does not end with `;`, `\x7b` or `\x7d`, does not start with `#`, and
does not contain any of the substrings `void setup`, `void loop`, `if (`,
`else`, `for (`, `while (`, `do`, `switch (`, `case `, `return`, `break`,
`continue`. -/
theorem C3_semicolon_rule_amended (code : Str) (j : Nat) (line : Str)
    (hg : (splitLines code).get? j = some line)
    (hne : trim line ≠ [])
    (hc1 : ¬ ("//".data <+: trim line))
    (hc2 : ¬ ("/*".data <+: trim line))
    (hc3 : ¬ ("*".data <+: trim line)) :
    ((⟨(j : Int) + 1, (line.length : Int), ArduinoCompiler.semiMsg, .error⟩ :
        CompilationError) ∈ ArduinoCompiler.analyze code ↔
      ((trim line).count ';' ≤ 1 ∧
       (trim line).getLast? ≠ some ';' ∧ (trim line).getLast? ≠ some lbrace ∧
       (trim line).getLast? ≠ some rbrace ∧ ¬ ("#".data <+: trim line) ∧
       ¬ ("void setup".data <:+: trim line) ∧ ¬ ("void loop".data <:+: trim line) ∧
       ¬ ("if (".data <:+: trim line) ∧ ¬ ("else".data <:+: trim line) ∧
       ¬ ("for (".data <:+: trim line) ∧ ¬ ("while (".data <:+: trim line) ∧
       ¬ ("do".data <:+: trim line) ∧ ¬ ("switch (".data <:+: trim line) ∧
       ¬ ("case ".data <:+: trim line) ∧ ¬ ("return".data <:+: trim line) ∧
       ¬ ("break".data <:+: trim line) ∧ ¬ ("continue".data <:+: trim line))) := by
  rw [ArduinoCompiler.semiErr_mem_analyze]
  constructor
  · rintro ⟨j', l', hg', hn, h1, h2, h3, h4⟩
    have hj : j = j' := by omega
    subst hj
    rw [hg] at hg'
    have hll : line = l' := by injection hg'
    subst hll
    rcases ArduinoCompiler.semiGuard_eq_true_iff.1 h3 with
      ⟨g1, g2, g3, g4, g5, g6, g7, g8, g9, g10, g11, g12, g13, g14, g15, g16, -⟩
    exact ⟨h2, g1, g2, g3, g4, g5, g6, g7, g8, g9, g10, g11, g12, g13, g14, g15, g16⟩
  · rintro ⟨hcnt, g1, g2, g3, g4, g5, g6, g7, g8, g9, g10, g11, g12, g13, g14, g15, g16⟩
    refine ⟨j, line, hg, by push_cast; ring, ?_, hcnt, ?_, rfl⟩
    · exact ArduinoCompiler.skipLine_eq_false_iff.2 ⟨hne, hc1, hc2, hc3⟩
    · refine ArduinoCompiler.semiGuard_eq_true_iff.2
        ⟨g1, g2, g3, g4, g5, g6, g7, g8, g9, g10, g11, g12, g13, g14, g15, g16, ?_⟩
      cases h : trim line with
      | nil => exact absurd h hne
      | cons c r => simp

theorem C3_amended_witness :
    (⟨1, 5, ArduinoCompiler.semiMsg, .error⟩ : CompilationError) ∈
      ArduinoCompiler.analyze ("x = 1".data) := by
  have h := C3_semicolon_rule_amended ("x = 1".data) 0 ("x = 1".data)
    (by decide) (by decide) (by decide) (by decide) (by decide)
  exact h.mpr (by decide)

/-! ### FreeAIService and AIHelper (src/utils/freeAIService.ts, aiHelper.ts) -/

/-- `AIFixSuggestion` record from `src/types`. -/
structure AIFixSuggestion where
  line : Int
  original : Str
  fixed : Str
  explanation : Str
deriving DecidableEq, Repr

/-- A JavaScript exception value (its message). -/
abbrev JsErr := Str

/-- Model of the network environment: what a `fetch` of a given URL would
produce (`Except.error` models a rejected promise, `Option` the possibly
missing `generated_text` field of the JSON response). -/
structure NetEnv where
  fetchGeneratedText : Str → Except JsErr (Option Str)

namespace FreeAIService

/-- `FreeAIService.simulateAISuggestion`: a canned string chosen purely by
substring matches on the error message (the `code` argument is unused by the
source too). -/
def simulateAISuggestion (code err : Str) : Str :=
  if containsStr "Expected `;`".data err then
    "Add semicolon at the end of the statement".data
  else if containsStr "pinMode".data err then
    "pinMode function requires two parameters: pin number and mode (INPUT/OUTPUT)".data
  else if containsStr "digitalWrite".data err then
    "digitalWrite function requires pin number and value (HIGH/LOW)".data
  else if containsStr "variable declaration".data err then
    "Declare variable with proper data type (int, float, bool, etc.)".data
  else if containsStr "void setup".data err then
    "Arduino sketches must have a setup() function for initialization".data
  else if containsStr "void loop".data err then
    "Arduino sketches must have a loop() function for main program execution".data
  else if containsStr "unclosed brace".data err then
    "Add missing closing brace \x7d to complete the code block".data
  else
    "Check Arduino syntax and ensure proper function calls".data

/-- `FreeAIService.generateCodeSuggestion`: despite the async/try wrapper it
performs no network call and simply returns the simulated suggestion (the
`catch` branch returns the same value). -/
def generateCodeSuggestion (_env : NetEnv) (code err : Str) : Str :=
  simulateAISuggestion code err

def apiUrl : Str :=
  "https://api-inference.huggingface.co/models/microsoft/DialoGPT-medium".data

/-- `FreeAIService.callHuggingFaceAPI` (never reached from the fix pipeline):
the only place the network environment is consulted. -/
def callHuggingFaceAPI (env : NetEnv) (prompt : Str) : Str :=
  match env.fetchGeneratedText apiUrl with
  | .error _ => simulateAISuggestion [] prompt
  | .ok none => "No response from AI".data
  | .ok (some t) => t

end FreeAIService

/-- First-match replacement driver: scan left to right, and at the first
position where `tryAt` matches, emit its replacement followed by the unmatched
remainder (models `String.prototype.replace` with a non-global pattern). -/
def replaceFirstAux (tryAt : Str → Option (Str × Str)) : Str → Str
  | [] => []
  | c :: rest =>
    match tryAt (c :: rest) with
    | some (repl, after) => repl ++ after
    | none => c :: replaceFirstAux tryAt rest

/-- JavaScript `s.replace(pat, repl)` with a plain (nonempty) string pattern. -/
def replaceStrFirst (pat repl : Str) (s : Str) : Str :=
  replaceFirstAux
    (fun t => if pat.isPrefixOf t then some (repl, t.drop pat.length) else none) s

/-- `lines[i - 1] || ''`: out-of-range indexing yields `undefined` and the
`||` fallback makes it the empty string (an empty line is falsy and also maps
to the empty string, so `List.getD` with default `[]` is exact). -/
def jsLineAt (lines : List Str) (i : Int) : Str :=
  if 0 ≤ i - 1 ∧ i - 1 < (lines.length : Int) then lines.getD (i - 1).toNat [] else []

namespace AIHelper

/-- `AIHelper.createSuggestionFromAI` (lines 45-76). -/
def createSuggestionFromAI (code : Str) (error : CompilationError)
    (aiExplanation : Str) : Option AIFixSuggestion :=
  let lines := splitLines code
  let line := jsLineAt lines error.line
  if containsStr "Expected `;`".data error.message then
    some ⟨error.line, line, line ++ [';'], aiExplanation⟩
  else if containsStr "pinMode".data error.message then
    some ⟨error.line, line,
      replaceStrFirst [' '] ", ".data (replaceStrFirst "pinMode(".data "pinMode(".data line),
      aiExplanation⟩
  else if containsStr "digitalWrite".data error.message then
    some ⟨error.line, line,
      replaceStrFirst [' '] ", ".data
        (replaceStrFirst "digitalWrite(".data "digitalWrite(".data line),
      aiExplanation⟩
  else none

/-- `AIHelper.getRuleBasedFixes` (lines 78-122). -/
def getRuleBasedFixes (code : Str) (errors : List CompilationError) :
    List AIFixSuggestion :=
  let lines := splitLines code
  errors.filterMap (fun error =>
    let line := jsLineAt lines error.line
    if containsStr "Expected `;`".data error.message then
      some ⟨error.line, line, line ++ [';'],
        "Added missing semicolon at end of statement".data⟩
    else if containsStr "void setup()".data error.message then
      some ⟨1, [],
        "void setup() \x7b\n  // Initialization code here\n  Serial.begin(9600);\n\x7d".data,
        "Added required setup() function".data⟩
    else if containsStr "void loop()".data error.message then
      some ⟨1, [], "\nvoid loop() \x7b\n  // Main code here\n\x7d".data,
        "Added required loop() function".data⟩
    else if containsStr "unclosed brace".data error.message then
      some ⟨error.line, line, line ++ "\n\x7d".data,
        "Added missing closing brace".data⟩
    else none)

/-- `AIHelper.countBraces` (lines 277-284), over the whole code string. -/
def countBraces (s : Str) : Int :=
  s.foldl (fun count c =>
    if c = lbrace then count + 1 else if c = rbrace then count - 1 else count) 0

/-- Insert-position loop of the enhanced setup fix (lines 151-159): walks the
initial run of `#include`/`#define` lines, keeping `i + 2` for the last one. -/
def insertAfterIncludes (acc : Int) (i : Nat) : List Str → Int
  | [] => acc
  | l :: ls =>
    if ("#include".data).isPrefixOf (trim l) || ("#define".data).isPrefixOf (trim l) then
      insertAfterIncludes ((i : Int) + 2) (i + 1) ls
    else acc

/-- Iterated `lastIndexOf(')')` removal (lines 225-231); `List.erase` on the
reversed list removes the last occurrence and is a no-op when absent, matching
the `lastIndexOf === -1` guard. -/
def removeLastParens : Nat → Str → Str
  | 0, s => s
  | n + 1, s => removeLastParens n ((s.reverse.erase ')').reverse)

/-- One attempt of `pinMode\s*\(\s*(\d+)\s+(\w+)\s*\)` with replacement
`pinMode($1, $2)`. -/
def tryPinModeAt (s : Str) : Option (Str × Str) :=
  if ("pinMode".data).isPrefixOf s then
    match (s.drop 7).dropWhile isJsWS with
    | '(' :: s2 =>
      let s3 := s2.dropWhile isJsWS
      let (d1, s4) := s3.span Char.isDigit
      if d1.isEmpty then none
      else
        let (w, s5) := s4.span isJsWS
        if w.isEmpty then none
        else
          let (g2, s6) := s5.span isWordChar
          if g2.isEmpty then none
          else
            match s6.dropWhile isJsWS with
            | ')' :: s8 => some ("pinMode(".data ++ d1 ++ ", ".data ++ g2 ++ [')'], s8)
            | _ => none
    | _ => none
  else none

/-- One attempt of `digitalWrite\s*\(\s*(\d+)\s+(\w+)\s*\)` with replacement
`digitalWrite($1, $2)`. -/
def tryDigitalWriteAt (s : Str) : Option (Str × Str) :=
  if ("digitalWrite".data).isPrefixOf s then
    match (s.drop 12).dropWhile isJsWS with
    | '(' :: s2 =>
      let s3 := s2.dropWhile isJsWS
      let (d1, s4) := s3.span Char.isDigit
      if d1.isEmpty then none
      else
        let (w, s5) := s4.span isJsWS
        if w.isEmpty then none
        else
          let (g2, s6) := s5.span isWordChar
          if g2.isEmpty then none
          else
            match s6.dropWhile isJsWS with
            | ')' :: s8 => some ("digitalWrite(".data ++ d1 ++ ", ".data ++ g2 ++ [')'], s8)
            | _ => none
    | _ => none
  else none

/-- One attempt of `analogWrite\s*\(\s*(\d+)\s+(\d+)\s*\)` with replacement
`analogWrite($1, $2)`. -/
def tryAnalogWriteAt (s : Str) : Option (Str × Str) :=
  if ("analogWrite".data).isPrefixOf s then
    match (s.drop 11).dropWhile isJsWS with
    | '(' :: s2 =>
      let s3 := s2.dropWhile isJsWS
      let (d1, s4) := s3.span Char.isDigit
      if d1.isEmpty then none
      else
        let (w, s5) := s4.span isJsWS
        if w.isEmpty then none
        else
          let (g2, s6) := s5.span Char.isDigit
          if g2.isEmpty then none
          else
            match s6.dropWhile isJsWS with
            | ')' :: s8 => some ("analogWrite(".data ++ d1 ++ ", ".data ++ g2 ++ [')'], s8)
            | _ => none
    | _ => none
  else none

/-- `AIHelper.validateSuggestion` (lines 287-319). -/
def validateSuggestion (code : Str) (s : AIFixSuggestion) : Bool :=
  let lines := splitLines code
  if s.line < 1 ∨ s.line > (lines.length : Int) + 2 then false
  else if s.line > (lines.length : Int) then true
  else
    let targetLine := jsLineAt lines s.line
    if !s.original.isEmpty && !(trim s.original).isEmpty then
      let ot := trim s.original
      let tt := trim targetLine
      if ot ≠ tt ∧ tt ≠ [] then
        if containsStr ot tt then true else false
      else true
    else true

/-- `AIHelper.getEnhancedRuleBasedFixes` (lines 124-275). -/
def getEnhancedRuleBasedFixes (code : Str) (errors : List CompilationError) :
    List AIFixSuggestion :=
  let lines := splitLines code
  errors.filterMap (fun error =>
    if error.line < (1 : Int) ∨ (lines.length : Int) < error.line then none
    else
      let line := jsLineAt lines error.line
      let sug : Option AIFixSuggestion :=
        if containsStr "Expected `;`".data error.message ||
           containsStr "SYNTAX ERROR: Expected".data error.message then
          if !endsWithChar ';' (trim line) then
            some ⟨error.line, line, line ++ [';'],
              "Added missing semicolon at end of statement".data⟩
          else none
        else if containsStr "void setup()".data error.message ||
            containsStr "Arduino sketch must have a void setup()".data error.message then
          let insertLine := insertAfterIncludes 1 0 lines
          let setupCode :=
            if containsStr "Serial.begin".data code then
              "void setup() \x7b\n  // Initialization code here\n\x7d".data
            else
              "void setup() \x7b\n  // Initialization code here\n  Serial.begin(9600);\n\x7d".data
          some ⟨insertLine, [], setupCode,
            "Added required setup() function with Serial initialization".data⟩
        else if containsStr "void loop()".data error.message ||
            containsStr "Arduino sketch must have a void loop()".data error.message then
          some ⟨(lines.length : Int) + 1, [],
            "\nvoid loop() \x7b\n  // Main code here\n\x7d".data,
            "Added required loop() function at the end of the sketch".data⟩
        else if containsStr "Multiple statements on same line".data error.message then
          let statements := (splitOnChar ';' line).filter (fun s => !(trim s).isEmpty)
          if statements.length > 1 then
            some ⟨error.line, line,
              List.intercalate ['\n'] (statements.map (fun s => trim s ++ [';'])),
              "Split multiple statements into separate lines".data⟩
          else none
        else if containsStr "Redefinition of function".data error.message ||
            containsStr "Duplicate function declaration".data error.message then
          some ⟨error.line, line, [], "Removed duplicate function declaration".data⟩
        else if containsStr "unclosed brace".data error.message then
          let braceCount := countBraces code
          if braceCount > 0 then
            some ⟨(lines.length : Int) + 1, [], List.replicate braceCount.toNat rbrace,
              "Added ".data ++ natStr braceCount.toNat ++
                " missing closing brace(s) at end of code".data⟩
          else none
        else if containsStr "Mismatched parentheses".data error.message then
          let openParens := line.count '('
          let closeParens := line.count ')'
          let diff : Int := (openParens : Int) - (closeParens : Int)
          if diff > 0 then
            some ⟨error.line, line, line ++ List.replicate diff.toNat ')',
              "Added ".data ++ natStr diff.toNat ++
                " missing closing parenthesis/parentheses".data⟩
          else if diff < 0 then
            some ⟨error.line, line, removeLastParens (-diff).toNat line,
              "Removed ".data ++ natStr (-diff).toNat ++
                " extra closing parenthesis/parentheses".data⟩
          else none
        else if containsStr "pinMode".data error.message ||
            containsStr "digitalWrite".data error.message ||
            containsStr "analogWrite".data error.message then
          let fixed1 :=
            if containsStr "pinMode".data line && !line.contains ',' then
              replaceFirstAux tryPinModeAt line
            else line
          let fixed2 :=
            if containsStr "digitalWrite".data line && !line.contains ',' then
              replaceFirstAux tryDigitalWriteAt fixed1
            else fixed1
          let fixed3 :=
            if containsStr "analogWrite".data line && !line.contains ',' then
              replaceFirstAux tryAnalogWriteAt fixed2
            else fixed2
          if fixed3 ≠ line then
            some ⟨error.line, line, fixed3,
              "Fixed Arduino function syntax - added missing comma between parameters".data⟩
          else none
        else none
      match sug with
      | some s => if validateSuggestion code s then some s else none
      | none => none)

/-- `AIHelper.getAIPoweredFixes` (lines 21-43): the per-error loop collects the
non-null suggestions; the surrounding try/catch never fires because every step
is pure, and when the loop yields nothing the enhanced rule-based fixes are
returned.  Typed as `Except` because in JS any `await` may reject. -/
def getAIPoweredFixes (env : NetEnv) (code : Str) (errors : List CompilationError) :
    Except JsErr (List AIFixSuggestion) :=
  let aiSuggestions := errors.filterMap (fun e =>
    createSuggestionFromAI code e (FreeAIService.generateCodeSuggestion env code e.message))
  if !aiSuggestions.isEmpty then .ok aiSuggestions
  else .ok (getEnhancedRuleBasedFixes code errors)

/-- The try/catch structure of `AIHelper.analyzeAndFix` (lines 5-19): given the
outcome of the guarded block, return its non-empty suggestion list, and fall
back to the rule-based fixes when it is empty or when the block threw. -/
def analyzeAndFixTry (code : Str) (errors : List CompilationError)
    (attempt : Except JsErr (List AIFixSuggestion)) : List AIFixSuggestion :=
  match attempt with
  | .ok aiSuggestions =>
    if !aiSuggestions.isEmpty then aiSuggestions else getRuleBasedFixes code errors
  | .error _ => getRuleBasedFixes code errors

/-- `AIHelper.analyzeAndFix`. -/
def analyzeAndFix (env : NetEnv) (code : Str) (errors : List CompilationError) :
    List AIFixSuggestion :=
  analyzeAndFixTry code errors (getAIPoweredFixes env code errors)

end AIHelper

/-- Claim C4: the AI fix pipeline is deterministic: for a fixed `(code,
errors)` pair, `AIHelper.analyzeAndFix` returns the same suggestion list in
any two network environments, because `FreeAIService.generateCodeSuggestion`
performs no network call and every downstream transformation is a pure string
substitution. -/
theorem C4_analyzeAndFix_deterministic (code : Str) (errors : List CompilationError)
    (env1 env2 : NetEnv) :
    AIHelper.analyzeAndFix env1 code errors = AIHelper.analyzeAndFix env2 code errors := rfl

/-- Claim C5: `AIHelper.analyzeAndFix` never propagates an exception: whenever
the guarded block throws (`Except.error`), the `catch` branch returns the
rule-based fixes; the function itself is total (it returns a plain list, never
an exception). -/
theorem C5_analyzeAndFix_catches (code : Str) (errors : List CompilationError)
    (err : JsErr) :
    AIHelper.analyzeAndFixTry code errors (Except.error err) =
      AIHelper.getRuleBasedFixes code errors := rfl

/-! ### SerialUploader (src/utils/serialUpload.ts) -/

/-- A reader obtained from `port.readable?.getReader()` (opaque to the
uploader's logic). -/
inductive SerialReader where
  | mk
deriving DecidableEq, Repr

/-- A writer obtained from `port.writable?.getWriter()`; `writeOutcome` is
what `writer.write(data)` resolves to. -/
structure SerialWriter where
  writeOutcome : Except JsErr Unit
deriving Repr

/-- A serial port as returned by `navigator.serial.requestPort()`:
`openOutcome` is the result of `port.open({ baudRate: 115200 })`, and
`readable`/`writable` model the possibly null streams. -/
structure SerialPortObj where
  openOutcome : Except JsErr Unit
  readable : Option SerialReader
  writable : Option SerialWriter
deriving Repr

/-- The browser environment seen by `SerialUploader.connect`: whether
`'serial' in navigator`, and what `requestPort()` resolves to (an `error`
models the user cancelling or any rejection). -/
structure SerialEnv where
  supported : Bool
  requestPortOutcome : Except JsErr SerialPortObj
deriving Repr

/-- The mutable fields of a `SerialUploader` instance. -/
structure SerialUploader where
  port : Option SerialPortObj
  reader : Option SerialReader
  writer : Option SerialWriter
deriving Repr

/-- A freshly constructed uploader: all fields null. -/
def initUploader : SerialUploader := ⟨none, none, none⟩

namespace SerialUploader

/-- `SerialUploader.connect` (lines 6-23): every failure is caught and turned
into `false`.  Note that `this.port` is assigned before `port.open` is
awaited, so when `open` rejects the uploader keeps the port object. -/
def connect (env : SerialEnv) (s : SerialUploader) : Bool × SerialUploader :=
  if env.supported = false then (false, s)
  else
    match env.requestPortOutcome with
    | .error _ => (false, s)
    | .ok p =>
      match p.openOutcome with
      | .error _ => (false, { s with port := some p })
      | .ok _ =>
        (true, { s with port := some p, reader := p.readable, writer := p.writable })

/-- `SerialUploader.upload` (lines 48-68): throws-then-catches into `false`
when not connected, writes the encoded sketch otherwise (the `onProgress`
callbacks only emit messages and carry no state). -/
def upload (s : SerialUploader) (code : Str) : Bool :=
  match s.port, s.writer with
  | some _, some w =>
    match w.writeOutcome with
    | .ok _ => true
    | .error _ => false
  | _, _ => false

end SerialUploader

/-- Claim C6 is false as stated: when `requestPort()` succeeds but
`port.open` rejects, `connect` returns `false` yet leaves `port` set to the
requested port (so `isConnected()` would even report `true`); the claim's
"leaves port/reader/writer null or unset" fails for the `port` field. -/
theorem C6_counterexample :
    (SerialUploader.connect
        ⟨true, .ok ⟨.error "open failed".data, none, none⟩⟩ initUploader).1 = false ∧
    (SerialUploader.connect
        ⟨true, .ok ⟨.error "open failed".data, none, none⟩⟩ initUploader).2.port =
      some ⟨.error "open failed".data, none, none⟩ := by
  exact ⟨rfl, rfl⟩

/-- Claim C6 (amended): `connect()` returns `false` on any failure (including
an unsupported Web Serial API); on failures before a port is acquired the
fields stay null on a fresh instance, while a failing `port.open` leaves the
acquired port stored (reader and writer still null); `upload(code)` returns
`false` whenever `port` or `writer` is null or the raw write fails; neither
method throws (both are total functions into `Bool`). -/
theorem C6_serial_failures_amended (env : SerialEnv) (s : SerialUploader)
    (code : Str) (p : SerialPortObj) (w : SerialWriter) (e : JsErr) :
    (env.supported = false →
      SerialUploader.connect env initUploader = (false, initUploader)) ∧
    (env.requestPortOutcome = .error e →
      SerialUploader.connect env initUploader = (false, initUploader)) ∧
    (env.supported = true → env.requestPortOutcome = .ok p → p.openOutcome = .error e →
      SerialUploader.connect env initUploader =
        (false, { initUploader with port := some p })) ∧
    (s.port = none → SerialUploader.upload s code = false) ∧
    (s.writer = none → SerialUploader.upload s code = false) ∧
    (s.writer = some w → w.writeOutcome = .error e →
      SerialUploader.upload s code = false) := by
  refine ⟨?_, ?_, ?_, ?_, ?_, ?_⟩
  · intro h
    simp [SerialUploader.connect, h]
  · intro h
    unfold SerialUploader.connect
    rw [h]
    split
    · rfl
    · rfl
  · intro hs hr ho
    simp [SerialUploader.connect, hs, hr, ho]
  · intro h
    unfold SerialUploader.upload
    rw [h]
  · intro h
    unfold SerialUploader.upload
    rw [h]
    rcases s.port with _ | p2
    · rfl
    · rfl
  · intro hw hwo
    unfold SerialUploader.upload
    rw [hw]
    rcases s.port with _ | p2
    · rfl
    · dsimp only
      rw [hwo]

/-- Witness for the amended C6 at concrete inputs: a failing `open` yields
`(false, port set, reader/writer null)`, and an unconnected upload fails. -/
theorem C6_serial_failures_witness :
    SerialUploader.connect ⟨true, .ok ⟨.error "x".data, none, none⟩⟩ initUploader =
      (false, { initUploader with port := some ⟨.error "x".data, none, none⟩ }) ∧
    SerialUploader.upload initUploader "void setup()".data = false := by
  constructor
  · exact (C6_serial_failures_amended ⟨true, .ok ⟨.error "x".data, none, none⟩⟩
      initUploader [] ⟨.error "x".data, none, none⟩ ⟨.ok ()⟩ "x".data).2.2.1
      rfl rfl rfl
  · exact (C6_serial_failures_amended ⟨true, .ok ⟨.error "x".data, none, none⟩⟩
      initUploader "void setup()".data ⟨.error "x".data, none, none⟩ ⟨.ok ()⟩
      "x".data).2.2.2.1 rfl

/-! ### Local-storage persistence (src/utils/storage.ts)

`localStorage` is modelled by the two cells the module uses; `JSON.stringify`
and `JSON.parse` are modelled by an executable printer/parser pair for the
exact JSON shape the module writes (arrays of `Project` records whose fields
are strings or `Sketch` arrays, keys in object-literal insertion order, which
the spread updates preserve). -/

/-- `Sketch` record from `src/types`. -/
structure Sketch where
  id : Str
  name : Str
  content : Str
deriving DecidableEq, Repr

/-- `Project` record from `src/types`. -/
structure Project where
  id : Str
  name : Str
  description : Str
  sketches : List Sketch
  createdAt : Str
  updatedAt : Str
deriving DecidableEq, Repr

/-- Lower-case hex digit, as emitted by `JSON.stringify` in `\u00XX`. -/
def hexDig (n : Nat) : Char :=
  if n < 10 then Char.ofNat (48 + n) else Char.ofNat (87 + n)

/-- `JSON.stringify` escaping of one string character. -/
def escChar (c : Char) : Str :=
  if c = '"' then ['\\', '"']
  else if c = '\\' then ['\\', '\\']
  else if c = '\n' then ['\\', 'n']
  else if c = '\r' then ['\\', 'r']
  else if c = '\t' then ['\\', 't']
  else if c = Char.ofNat 8 then ['\\', 'b']
  else if c = Char.ofNat 12 then ['\\', 'f']
  else if c.toNat < 32 then
    ['\\', 'u', '0', '0', hexDig (c.toNat / 16), hexDig (c.toNat % 16)]
  else [c]

def escape (s : Str) : Str := (s.map escChar).flatten

/-- A JSON string literal. -/
def jstr (s : Str) : Str := '"' :: (escape s ++ ['"'])

/-- Fixed key skeleta of the serialized records (`{"id":`, `,"name":`, ...). -/
def skP1 : Str := "\x7b\"id\":".data

def skP2 : Str := ",\"name\":".data

def skP3 : Str := ",\"content\":".data

def prP3 : Str := ",\"description\":".data

def prP4 : Str := ",\"sketches\":".data

def prP5 : Str := ",\"createdAt\":".data

def prP6 : Str := ",\"updatedAt\":".data

def rbr : Str := "\x7d".data

/-- `JSON.stringify` of one `Sketch` (keys in insertion order). -/
def sketchJson (sk : Sketch) : Str :=
  skP1 ++ (jstr sk.id ++ (skP2 ++ (jstr sk.name ++ (skP3 ++ (jstr sk.content ++ rbr)))))

/-- Comma-separated tail of a serialized `Sketch` array. -/
def skTailJson : List Sketch → Str
  | [] => "]".data
  | x :: xs => ",".data ++ (sketchJson x ++ skTailJson xs)

/-- `JSON.stringify` of a `Sketch` array. -/
def sketchArrJson : List Sketch → Str
  | [] => "[]".data
  | x :: xs => "[".data ++ (sketchJson x ++ skTailJson xs)

/-- `JSON.stringify` of one `Project` (keys in insertion order). -/
def projectJson (p : Project) : Str :=
  skP1 ++ (jstr p.id ++ (skP2 ++ (jstr p.name ++ (prP3 ++ (jstr p.description ++
    (prP4 ++ (sketchArrJson p.sketches ++ (prP5 ++ (jstr p.createdAt ++
    (prP6 ++ (jstr p.updatedAt ++ rbr)))))))))))

def prTailJson : List Project → Str
  | [] => "]".data
  | x :: xs => ",".data ++ (projectJson x ++ prTailJson xs)

/-- `JSON.stringify` of the stored `Project` array. -/
def stringifyProjects : List Project → Str
  | [] => "[]".data
  | x :: xs => "[".data ++ (projectJson x ++ prTailJson xs)

/-- Hex digit value accepted by `JSON.parse` in `\uXXXX`. -/
def hexVal (c : Char) : Option Nat :=
  if '0' ≤ c ∧ c ≤ '9' then some (c.toNat - 48)
  else if 'a' ≤ c ∧ c ≤ 'f' then some (c.toNat - 87)
  else if 'A' ≤ c ∧ c ≤ 'F' then some (c.toNat - 55)
  else none

/-- JSON string-body parser: consumes up to the closing quote, decoding
escapes; returns the decoded string and the remainder. -/
def pStrBody : Str → Option (Str × Str)
  | [] => none
  | '"' :: rest => some ([], rest)
  | '\\' :: rest =>
    match rest with
    | [] => none
    | e :: rest2 =>
      if e = '"' then (pStrBody rest2).map (fun r => ('"' :: r.1, r.2))
      else if e = '\\' then (pStrBody rest2).map (fun r => ('\\' :: r.1, r.2))
      else if e = '/' then (pStrBody rest2).map (fun r => ('/' :: r.1, r.2))
      else if e = 'n' then (pStrBody rest2).map (fun r => ('\n' :: r.1, r.2))
      else if e = 'r' then (pStrBody rest2).map (fun r => ('\r' :: r.1, r.2))
      else if e = 't' then (pStrBody rest2).map (fun r => ('\t' :: r.1, r.2))
      else if e = 'b' then (pStrBody rest2).map (fun r => (Char.ofNat 8 :: r.1, r.2))
      else if e = 'f' then (pStrBody rest2).map (fun r => (Char.ofNat 12 :: r.1, r.2))
      else if e = 'u' then
        match rest2 with
        | h1 :: h2 :: h3 :: h4 :: rest3 =>
          match hexVal h1, hexVal h2, hexVal h3, hexVal h4 with
          | some v1, some v2, some v3, some v4 =>
            (pStrBody rest3).map
              (fun r => (Char.ofNat (((v1 * 16 + v2) * 16 + v3) * 16 + v4) :: r.1, r.2))
          | _, _, _, _ => none
        | _ => none
      else none
  | c :: rest => (pStrBody rest).map (fun r => (c :: r.1, r.2))

/-- JSON string parser (expects the opening quote). -/
def pStr : Str → Option (Str × Str)
  | '"' :: rest => pStrBody rest
  | _ => none

/-- Literal matcher. -/
def pLit (pat s : Str) : Option Str :=
  if pat.isPrefixOf s then some (s.drop pat.length) else none

/-- Parser for one serialized `Sketch`. -/
def pSketch (s : Str) : Option (Sketch × Str) :=
  match pLit skP1 s with
  | none => none
  | some s1 =>
    match pStr s1 with
    | none => none
    | some (idv, s2) =>
      match pLit skP2 s2 with
      | none => none
      | some s3 =>
        match pStr s3 with
        | none => none
        | some (namev, s4) =>
          match pLit skP3 s4 with
          | none => none
          | some s5 =>
            match pStr s5 with
            | none => none
            | some (contentv, s6) =>
              match pLit rbr s6 with
              | none => none
              | some s7 => some (⟨idv, namev, contentv⟩, s7)

/-- Parser for the tail of a `Sketch` array (after the first element). -/
def pSketchTail : Nat → Str → Option (List Sketch × Str)
  | 0, s =>
    match pLit "]".data s with
    | some r => some ([], r)
    | none => none
  | fuel + 1, s =>
    match pLit "]".data s with
    | some r => some ([], r)
    | none =>
      match pLit ",".data s with
      | none => none
      | some r =>
        match pSketch r with
        | none => none
        | some (sk, r1) =>
          match pSketchTail fuel r1 with
          | none => none
          | some (sks, r2) => some (sk :: sks, r2)

/-- Parser for a `Sketch` array. -/
def pSketchArr (fuel : Nat) (s : Str) : Option (List Sketch × Str) :=
  match pLit "[".data s with
  | none => none
  | some s1 =>
    match pLit "]".data s1 with
    | some r => some ([], r)
    | none =>
      match pSketch s1 with
      | none => none
      | some (sk, r1) =>
        match pSketchTail fuel r1 with
        | none => none
        | some (sks, r2) => some (sk :: sks, r2)

/-- Parser for one serialized `Project`. -/
def pProject (fuel : Nat) (s : Str) : Option (Project × Str) :=
  match pLit skP1 s with
  | none => none
  | some s1 =>
    match pStr s1 with
    | none => none
    | some (idv, s2) =>
      match pLit skP2 s2 with
      | none => none
      | some s3 =>
        match pStr s3 with
        | none => none
        | some (namev, s4) =>
          match pLit prP3 s4 with
          | none => none
          | some s5 =>
            match pStr s5 with
            | none => none
            | some (descv, s6) =>
              match pLit prP4 s6 with
              | none => none
              | some s7 =>
                match pSketchArr fuel s7 with
                | none => none
                | some (sks, s8) =>
                  match pLit prP5 s8 with
                  | none => none
                  | some s9 =>
                    match pStr s9 with
                    | none => none
                    | some (cav, s10) =>
                      match pLit prP6 s10 with
                      | none => none
                      | some s11 =>
                        match pStr s11 with
                        | none => none
                        | some (uav, s12) =>
                          match pLit rbr s12 with
                          | none => none
                          | some s13 => some (⟨idv, namev, descv, sks, cav, uav⟩, s13)

/-- Parser for the tail of the `Project` array. -/
def pProjectTail : Nat → Str → Option (List Project × Str)
  | 0, s =>
    match pLit "]".data s with
    | some r => some ([], r)
    | none => none
  | fuel + 1, s =>
    match pLit "]".data s with
    | some r => some ([], r)
    | none =>
      match pLit ",".data s with
      | none => none
      | some r =>
        match pProject fuel r with
        | none => none
        | some (p, r1) =>
          match pProjectTail fuel r1 with
          | none => none
          | some (ps, r2) => some (p :: ps, r2)

/-- Parser for the stored `Project` array. -/
def pProjectArr (fuel : Nat) (s : Str) : Option (List Project × Str) :=
  match pLit "[".data s with
  | none => none
  | some s1 =>
    match pLit "]".data s1 with
    | some r => some ([], r)
    | none =>
      match pProject fuel s1 with
      | none => none
      | some (p, r1) =>
        match pProjectTail fuel r1 with
        | none => none
        | some (ps, r2) => some (p :: ps, r2)

/-- `JSON.parse` followed by the (unchecked) `Project[]` cast: succeeds when
the text is a serialized `Project` array followed only by whitespace. -/
def parseProjects (s : Str) : Option (List Project) :=
  match pProjectArr s.length s with
  | some (ps, rest) => if rest.dropWhile isJsWS = [] then some ps else none
  | none => none

theorem pLit_append (pat rest : Str) : pLit pat (pat ++ rest) = some rest := by
  unfold pLit
  rw [if_pos (List.isPrefixOf_iff_prefix.2 (List.prefix_append pat rest)), List.drop_left]

theorem hexVal_hexDig {d : Nat} (hd : d < 16) : hexVal (hexDig d) = some d := by
  interval_cases d <;> decide

theorem pStrBody_round : ∀ (v rest : Str), pStrBody (escape v ++ ('"' :: rest)) = some (v, rest)
  | [], rest => by simp [escape, pStrBody]
  | c :: v, rest => by
    have ih := pStrBody_round v rest
    have hesc : escape (c :: v) = escChar c ++ escape v := by
      simp [escape]
    rw [hesc, List.append_assoc]
    unfold escChar
    by_cases h1 : c = '"'
    · subst h1
      rw [pStrBody.eq_def]
      simp [ih]
    · rw [if_neg h1]
      by_cases h2 : c = '\\'
      · subst h2
        rw [pStrBody.eq_def]
        simp [ih]
      · rw [if_neg h2]
        by_cases h3 : c = '\n'
        · subst h3
          rw [pStrBody.eq_def]
          simp +decide [ih]
        · rw [if_neg h3]
          by_cases h4 : c = '\r'
          · subst h4
            rw [pStrBody.eq_def]
            simp +decide [ih]
          · rw [if_neg h4]
            by_cases h5 : c = '\t'
            · subst h5
              rw [pStrBody.eq_def]
              simp +decide [ih]
            · rw [if_neg h5]
              by_cases h6 : c = Char.ofNat 8
              · subst h6
                rw [pStrBody.eq_def]
                simp +decide [ih]
              · rw [if_neg h6]
                by_cases h7 : c = Char.ofNat 12
                · subst h7
                  rw [pStrBody.eq_def]
                  simp +decide [ih]
                · rw [if_neg h7]
                  by_cases h8 : c.toNat < 32
                  · rw [if_pos h8]
                    have hv1 : hexVal (hexDig (c.toNat / 16)) = some (c.toNat / 16) :=
                      hexVal_hexDig (by omega)
                    have hv2 : hexVal (hexDig (c.toNat % 16)) = some (c.toNat % 16) :=
                      hexVal_hexDig (Nat.mod_lt _ (by omega))
                    have hv0 : hexVal '0' = some 0 := by decide
                    simp only [List.cons_append, List.nil_append]
                    rw [pStrBody.eq_def]
                    simp +decide [hv0, hv1, hv2, ih]
                    have harith : c.toNat / 16 * 16 + c.toNat % 16 = c.toNat := by omega
                    rw [harith, Char.ofNat_toNat]
                  · rw [if_neg h8]
                    simp only [List.cons_append, List.nil_append]
                    rw [pStrBody.eq_def]
                    split
                    · rename_i heq
                      exact absurd heq (by simp)
                    · rename_i heq
                      exfalso
                      have : c = '"' := by
                        have := congrArg (fun l => l.headD 'x') heq
                        simpa using this
                      exact h1 this
                    · rename_i heq
                      exfalso
                      have : c = '\\' := by
                        have := congrArg (fun l => l.headD 'x') heq
                        simpa using this
                      exact h2 this
                    · simp_all

theorem pStr_append (v rest : Str) : pStr (jstr v ++ rest) = some (v, rest) := by
  have h : jstr v ++ rest = '"' :: (escape v ++ ('"' :: rest)) := by
    unfold jstr
    simp
  rw [h]
  exact pStrBody_round v rest

theorem pSketch_round (sk : Sketch) (R : Str) :
    pSketch (sketchJson sk ++ R) = some (sk, R) := by
  obtain ⟨i, n, co⟩ := sk
  unfold sketchJson pSketch
  simp only [List.append_assoc, pLit_append, pStr_append]

theorem pLit_rb_sketch (sk : Sketch) (X : Str) :
    pLit [']'] (sketchJson sk ++ X) = none := rfl

theorem pLit_rb_comma (X : Str) : pLit [']'] (',' :: X) = none := rfl

theorem pLit_rb_project (p : Project) (X : Str) :
    pLit [']'] (projectJson p ++ X) = none := rfl

theorem pLit_comma_cons (X : Str) : pLit [','] (',' :: X) = some X := pLit_append [','] X

theorem pLit_rb_cons (X : Str) : pLit [']'] (']' :: X) = some X := pLit_append [']'] X

theorem pLit_lb_cons (X : Str) : pLit ['['] ('[' :: X) = some X := pLit_append ['['] X

theorem pSketchTail_round : ∀ (sks : List Sketch) (fuel : Nat) (R : Str),
    sks.length ≤ fuel → pSketchTail fuel (skTailJson sks ++ R) = some (sks, R)
  | [], fuel, R, _ => by
    cases fuel with
    | zero =>
      show pSketchTail 0 ("]".data ++ R) = some ([], R)
      simp only [pSketchTail, List.singleton_append, pLit_rb_cons]
    | succ f =>
      show pSketchTail (f + 1) ("]".data ++ R) = some ([], R)
      simp only [pSketchTail, List.singleton_append, pLit_rb_cons]
  | x :: xs, fuel, R, h => by
    cases fuel with
    | zero => simp at h
    | succ f =>
      have ih := pSketchTail_round xs f R (by simpa using h)
      show pSketchTail (f + 1) ((",".data ++ (sketchJson x ++ skTailJson xs)) ++ R) =
        some (x :: xs, R)
      simp only [List.append_assoc]
      simp only [pSketchTail, List.singleton_append, pLit_rb_comma, pLit_comma_cons,
        pSketch_round, ih]

theorem pSketchArr_round : ∀ (sks : List Sketch) (fuel : Nat) (R : Str),
    sks.length ≤ fuel + 1 → pSketchArr fuel (sketchArrJson sks ++ R) = some (sks, R)
  | [], fuel, R, _ => by
    show pSketchArr fuel ("[]".data ++ R) = some ([], R)
    simp only [pSketchArr, List.cons_append, List.singleton_append, List.nil_append,
      pLit_lb_cons, pLit_rb_cons]
  | x :: xs, fuel, R, h => by
    have ih := pSketchTail_round xs fuel R (by simpa using h)
    show pSketchArr fuel (("[".data ++ (sketchJson x ++ skTailJson xs)) ++ R) =
      some (x :: xs, R)
    simp only [List.append_assoc]
    simp only [pSketchArr, List.singleton_append, pLit_lb_cons, pLit_rb_sketch,
      pSketch_round, ih]

theorem pProject_round (p : Project) (fuel : Nat) (R : Str)
    (h : p.sketches.length ≤ fuel + 1) :
    pProject fuel (projectJson p ++ R) = some (p, R) := by
  obtain ⟨i, n, d, sks, ca, ua⟩ := p
  unfold projectJson pProject
  simp only [List.append_assoc, pLit_append, pStr_append]
  rw [pSketchArr_round sks fuel _ (by simpa using h)]
  simp only [List.append_assoc, pLit_append, pStr_append]

theorem pProjectTail_round : ∀ (ps : List Project) (fuel : Nat) (R : Str),
    (∀ p ∈ ps, p.sketches.length + ps.length ≤ fuel) →
    pProjectTail fuel (prTailJson ps ++ R) = some (ps, R)
  | [], fuel, R, _ => by
    cases fuel with
    | zero =>
      show pProjectTail 0 ("]".data ++ R) = some ([], R)
      simp only [pProjectTail, List.singleton_append, pLit_rb_cons]
    | succ f =>
      show pProjectTail (f + 1) ("]".data ++ R) = some ([], R)
      simp only [pProjectTail, List.singleton_append, pLit_rb_cons]
  | x :: xs, fuel, R, h => by
    cases fuel with
    | zero =>
      exfalso
      have := h x (List.mem_cons_self x xs)
      simp at this
    | succ f =>
      have ih := pProjectTail_round xs f R (by
        intro q hq
        have := h q (List.mem_cons_of_mem x hq)
        simp only [List.length_cons] at this
        omega)
      have hx : x.sketches.length ≤ f + 1 := by
        have := h x (List.mem_cons_self x xs)
        simp only [List.length_cons] at this
        omega
      have hp := pProject_round x f (prTailJson xs ++ R) hx
      show pProjectTail (f + 1) ((",".data ++ (projectJson x ++ prTailJson xs)) ++ R) =
        some (x :: xs, R)
      simp only [List.append_assoc]
      simp only [pProjectTail, List.singleton_append, pLit_rb_comma, pLit_comma_cons,
        hp, ih]

theorem pProjectArr_round : ∀ (ps : List Project) (fuel : Nat) (R : Str),
    (∀ p ∈ ps, p.sketches.length + ps.length ≤ fuel + 1) →
    pProjectArr fuel (stringifyProjects ps ++ R) = some (ps, R)
  | [], fuel, R, _ => by
    show pProjectArr fuel ("[]".data ++ R) = some ([], R)
    simp only [pProjectArr, List.cons_append, List.singleton_append, List.nil_append,
      pLit_lb_cons, pLit_rb_cons]
  | x :: xs, fuel, R, h => by
    have ih := pProjectTail_round xs fuel R (by
      intro q hq
      have := h q (List.mem_cons_of_mem x hq)
      simp only [List.length_cons] at this
      omega)
    have hx : x.sketches.length ≤ fuel + 1 := by
      have := h x (List.mem_cons_self x xs)
      omega
    have hp := pProject_round x fuel (prTailJson xs ++ R) hx
    show pProjectArr fuel (("[".data ++ (projectJson x ++ prTailJson xs)) ++ R) =
      some (x :: xs, R)
    simp only [List.append_assoc]
    simp only [pProjectArr, List.singleton_append, pLit_lb_cons, pLit_rb_project,
      hp, ih]

theorem length_le_sum_sizes (ps : List Project) :
    ps.length ≤ (ps.map (fun q => q.sketches.length + 1)).sum := by
  induction ps with
  | nil => simp
  | cons q qs ih =>
    simp only [List.map_cons, List.sum_cons, List.length_cons]
    omega

theorem member_size_bound {ps : List Project} {p : Project} (hp : p ∈ ps) :
    p.sketches.length + ps.length ≤ (ps.map (fun q => q.sketches.length + 1)).sum := by
  induction ps with
  | nil => exact absurd hp (List.not_mem_nil p)
  | cons q qs ih =>
    simp only [List.map_cons, List.sum_cons, List.length_cons]
    rcases List.mem_cons.1 hp with h | h
    · subst h
      have := length_le_sum_sizes qs
      omega
    · have := ih h
      omega

theorem len_skTailJson (sks : List Sketch) : sks.length + 1 ≤ (skTailJson sks).length := by
  induction sks with
  | nil => simp [skTailJson]
  | cons x xs ih =>
    have h1 : (1 : Nat) ≤ (sketchJson x).length := by
      unfold sketchJson
      simp only [List.length_append]
      have : skP1.length = 6 := rfl
      omega
    simp only [skTailJson, List.length_append, List.length_cons]
    have h2 : (",".data).length = 1 := rfl
    omega

theorem len_sketchArrJson (sks : List Sketch) :
    sks.length + 1 ≤ (sketchArrJson sks).length := by
  cases sks with
  | nil => simp [sketchArrJson]
  | cons x xs =>
    have h1 := len_skTailJson xs
    have h2 : (1 : Nat) ≤ (sketchJson x).length := by
      unfold sketchJson
      simp only [List.length_append]
      have : skP1.length = 6 := rfl
      omega
    simp only [sketchArrJson, List.length_append, List.length_cons]
    have h3 : ("[".data).length = 1 := rfl
    omega

theorem len_projectJson (p : Project) :
    p.sketches.length + 1 ≤ (projectJson p).length := by
  have h := len_sketchArrJson p.sketches
  unfold projectJson
  simp only [List.length_append]
  omega

theorem len_prTailJson (ps : List Project) :
    (ps.map (fun q => q.sketches.length + 1)).sum + 1 ≤ (prTailJson ps).length := by
  induction ps with
  | nil => simp [prTailJson]
  | cons x xs ih =>
    have h1 := len_projectJson x
    simp only [prTailJson, List.length_append, List.map_cons, List.sum_cons]
    have h2 : (",".data).length = 1 := rfl
    omega

theorem len_stringifyProjects (ps : List Project) :
    (ps.map (fun q => q.sketches.length + 1)).sum + 1 ≤ (stringifyProjects ps).length := by
  cases ps with
  | nil => simp [stringifyProjects]
  | cons x xs =>
    have h1 := len_projectJson x
    have h2 := len_prTailJson xs
    simp only [stringifyProjects, List.length_append, List.map_cons, List.sum_cons]
    have h3 : ("[".data).length = 1 := rfl
    omega

/-- The JSON round trip: parsing the serialized project list restores it. -/
theorem parseProjects_stringify (ps : List Project) :
    parseProjects (stringifyProjects ps) = some ps := by
  unfold parseProjects
  have hb : ∀ p ∈ ps, p.sketches.length + ps.length ≤ (stringifyProjects ps).length + 1 := by
    intro p hp
    have h1 := member_size_bound hp
    have h2 := len_stringifyProjects ps
    omega
  have h := pProjectArr_round ps (stringifyProjects ps).length [] hb
  rw [List.append_nil] at h
  rw [h]
  simp

/-! ## The `storage` module (local-storage-backed project persistence)

`localStorage` is modelled as a two-cell store: `projectsVal` holds the value
under `PROJECTS_KEY` (`arduino_ide_projects`) and `currentVal` the value under
`CURRENT_PROJECT_KEY` (`arduino_ide_current_project`); `none` means the key is
absent.  `crypto.randomUUID()` and `new Date().toISOString()` are free inputs,
threaded as explicit string parameters. -/

structure Store where
  projectsVal : Option Str
  currentVal : Option Str
deriving DecidableEq, Repr

def emptyStore : Store := ⟨none, none⟩

namespace storage

/-- `getProjects`: `const data = localStorage.getItem(PROJECTS_KEY); return
data ? JSON.parse(data) : []`.  An absent key (and the falsy empty string)
yields `[]`; a present value is parsed.  A `JSON.parse` failure, which would
throw in JS, is modelled as `[]` as well — every store written by this module
holds `stringifyProjects` output, on which `parseProjects` succeeds. -/
def getProjects (st : Store) : List Project :=
  match st.projectsVal with
  | none => []
  | some data => (parseProjects data).getD []

/-- `saveProjects`: `localStorage.setItem(PROJECTS_KEY, JSON.stringify(projects))`. -/
def saveProjects (projects : List Project) (st : Store) : Store :=
  ⟨some (stringifyProjects projects), st.currentVal⟩

/-- `getCurrentProjectId`: `localStorage.getItem(CURRENT_PROJECT_KEY)`. -/
def getCurrentProjectId (st : Store) : Option Str :=
  st.currentVal

/-- `setCurrentProjectId`: `localStorage.setItem(CURRENT_PROJECT_KEY, id)`. -/
def setCurrentProjectId (idv : Str) (st : Store) : Store :=
  ⟨st.projectsVal, some idv⟩

/-- The initial sketch content template in `createProject`. -/
def defaultSketchContent : Str :=
  "void setup() \x7b\n  // put your setup code here, to run once:\n  Serial.begin(9600);\n\x7d\n\nvoid loop() \x7b\n  // put your main code here, to run repeatedly:\n  \n\x7d".data

/-- `createProject(name, description)`: appends a fresh project with one
initial sketch named `` `${name}.ino` ``, saves, and makes it current.
`uuidP`/`uuidS` are the two `crypto.randomUUID()` results, `now` the
timestamp. -/
def createProject (uuidP uuidS now name description : Str) (st : Store) :
    Project × Store :=
  let projects := getProjects st
  let newProject : Project :=
    ⟨uuidP, name, description,
     [⟨uuidS, name ++ ".ino".data, defaultSketchContent⟩], now, now⟩
  let st1 := saveProjects (projects ++ [newProject]) st
  (newProject, setCurrentProjectId uuidP st1)

/-- A `Partial<Project>` argument to `updateProject`: absent fields are `none`.
A supplied `updatedAt` is always overwritten by the trailing
`updatedAt: new Date().toISOString()` in the spread, so it carries no effect. -/
structure ProjectUpdate where
  id? : Option Str
  name? : Option Str
  description? : Option Str
  sketches? : Option (List Sketch)
  createdAt? : Option Str
  updatedAt? : Option Str
deriving Repr

/-- The spread `{ ...p, ...updates, updatedAt: now }`. -/
def applyUpdate (p : Project) (u : ProjectUpdate) (now : Str) : Project :=
  ⟨u.id?.getD p.id, u.name?.getD p.name, u.description?.getD p.description,
   u.sketches?.getD p.sketches, u.createdAt?.getD p.createdAt, now⟩

/-- Replace the first element satisfying `pred` by its image under `f`
(JS `findIndex` + assignment at that index, or an in-place mutation of the
object returned by `find`). -/
def updFirst {α : Type} (pred : α → Bool) (f : α → α) : List α → List α
  | [] => []
  | x :: xs => if pred x then f x :: xs else x :: updFirst pred f xs

/-- `updateProject(id, updates)`: `findIndex` on id; when found, spread-update
that entry and save; when `index === -1`, do nothing (no save). -/
def updateProject (idv : Str) (u : ProjectUpdate) (now : Str) (st : Store) : Store :=
  let projects := getProjects st
  if projects.any (fun p => p.id == idv) then
    saveProjects (updFirst (fun p => p.id == idv) (fun p => applyUpdate p u now) projects) st
  else st

/-- `deleteProject(id)`: save the list filtered by `p.id !== id`, then remove
the current-project key when `getCurrentProjectId() === id` (read after the
save, so from the unchanged `currentVal`). -/
def deleteProject (idv : Str) (st : Store) : Store :=
  let st1 := saveProjects ((getProjects st).filter (fun p => !(p.id == idv))) st
  if getCurrentProjectId st1 = some idv then ⟨st1.projectsVal, none⟩ else st1

/-- `addSketch(projectId, name)`: push a fresh empty sketch onto the first
project with that id, stamp `updatedAt`, save, and return the sketch; throw
`Project not found` otherwise. -/
def addSketch (uuid now projectId name : Str) (st : Store) :
    Except JsErr (Sketch × Store) :=
  let projects := getProjects st
  match projects.find? (fun p => p.id == projectId) with
  | some _ =>
    let newSketch : Sketch := ⟨uuid, name, []⟩
    let projects2 := updFirst (fun p => p.id == projectId)
      (fun p => ⟨p.id, p.name, p.description, p.sketches ++ [newSketch],
                 p.createdAt, now⟩) projects
    Except.ok (newSketch, saveProjects projects2 st)
  | none => Except.error "Project not found".data

/-- `updateSketch(projectId, sketchId, content)`: in the first project with
that id, overwrite the content of the first sketch with that id, stamp
`updatedAt`, and save; if project or sketch is missing, do nothing. -/
def updateSketch (projectId sketchId content now : Str) (st : Store) : Store :=
  let projects := getProjects st
  match projects.find? (fun p => p.id == projectId) with
  | none => st
  | some proj =>
    if proj.sketches.any (fun s => s.id == sketchId) then
      saveProjects (updFirst (fun p => p.id == projectId)
        (fun p => ⟨p.id, p.name, p.description,
          updFirst (fun s => s.id == sketchId) (fun s => ⟨s.id, s.name, content⟩)
            p.sketches,
          p.createdAt, now⟩) projects) st
    else st

/-- `deleteSketch(projectId, sketchId)`: only when the first project with that
id holds more than one sketch, drop every sketch with the given id, stamp
`updatedAt`, and save; otherwise do nothing. -/
def deleteSketch (projectId sketchId now : Str) (st : Store) : Store :=
  let projects := getProjects st
  match projects.find? (fun p => p.id == projectId) with
  | none => st
  | some proj =>
    if 1 < proj.sketches.length then
      saveProjects (updFirst (fun p => p.id == projectId)
        (fun p => ⟨p.id, p.name, p.description,
          p.sketches.filter (fun s => !(s.id == sketchId)), p.createdAt, now⟩)
        projects) st
    else st

end storage

theorem getProjects_save (ps : List Project) (st : Store) :
    storage.getProjects (storage.saveProjects ps st) = ps := by
  simp [storage.getProjects, storage.saveProjects, parseProjects_stringify]

theorem getProjects_mk (l : List Project) (c : Option Str) :
    storage.getProjects ⟨some (stringifyProjects l), c⟩ = l := by
  simp [storage.getProjects, parseProjects_stringify]

theorem getProjects_setCur (idv : Str) (st : Store) :
    storage.getProjects (storage.setCurrentProjectId idv st) = storage.getProjects st := rfl

theorem deleteProject_eq (idv : Str) (st : Store) :
    storage.deleteProject idv st =
      (if st.currentVal = some idv then
        ⟨some (stringifyProjects
          ((storage.getProjects st).filter (fun p => !(p.id == idv)))), none⟩
       else
        ⟨some (stringifyProjects
          ((storage.getProjects st).filter (fun p => !(p.id == idv)))),
         st.currentVal⟩) := rfl

theorem updateProject_no_match (idv : Str) (u : storage.ProjectUpdate) (now : Str)
    (st : Store)
    (h : ((storage.getProjects st).any fun p => p.id == idv) = false) :
    storage.updateProject idv u now st = st := by
  simp only [storage.updateProject, h, Bool.false_eq_true, if_false]

theorem getProjects_delete (idv : Str) (st : Store) :
    storage.getProjects (storage.deleteProject idv st) =
      (storage.getProjects st).filter (fun p => !(p.id == idv)) := by
  rw [deleteProject_eq]
  split
  · exact getProjects_mk _ _
  · exact getProjects_mk _ _

/-- C7: local-storage persistence round-trips: `getProjects` right after
`saveProjects ps` returns a list structurally equal to `ps` (the
stringify/parse round trip through the projects key is the identity on the
`Project` record shape), and `getProjects` on a store without the projects
key returns the empty list. -/
theorem C7_storage_roundtrip :
    (∀ (ps : List Project) (st : Store),
        storage.getProjects (storage.saveProjects ps st) = ps) ∧
    (∀ cur : Option Str, storage.getProjects ⟨none, cur⟩ = []) := by
  refine ⟨getProjects_save, ?_⟩
  intro cur
  rfl

/-- C9: over an arbitrary stored list `ps`, `deleteProject id` keeps exactly
the stored projects whose id differs from `id`, each record unchanged; on an
arbitrary store it removes the current-project key if and only if the stored
current id equals `id`; and `updateProject` on a stored list `ps2` in which
no project carries the requested id leaves the store unchanged. -/
theorem C9_delete_update_frame (ps ps2 : List Project) (st : Store) (idv : Str)
    (u : storage.ProjectUpdate) (now : Str)
    (hno : ∀ p ∈ ps2, p.id ≠ idv) :
    storage.getProjects (storage.deleteProject idv (storage.saveProjects ps st)) =
      ps.filter (fun p => !(p.id == idv)) ∧
    (storage.deleteProject idv st).currentVal =
      (if st.currentVal = some idv then none else st.currentVal) ∧
    storage.updateProject idv u now (storage.saveProjects ps2 st) =
      storage.saveProjects ps2 st := by
  refine ⟨?_, ?_, ?_⟩
  · rw [getProjects_delete, getProjects_save]
  · rw [deleteProject_eq]
    split
    · rfl
    · rfl
  · have hfalse : (ps2.any fun p => p.id == idv) = false := by
      rw [List.any_eq_false]
      intro p hp h
      exact hno p hp (eq_of_beq h)
    exact updateProject_no_match idv u now _ (by rw [getProjects_save]; exact hfalse)

def c9ps : List Project :=
  [⟨"b".data, "x".data, [], [⟨"u".data, "v".data, []⟩], "t".data, "t".data⟩,
   ⟨"a".data, "n".data, [], [⟨"s".data, "m".data, []⟩], "t".data, "t".data⟩]

def c9ps2 : List Project :=
  [⟨"a".data, "n".data, [], [⟨"s".data, "m".data, []⟩], "t".data, "t".data⟩]

def c9upd : storage.ProjectUpdate := ⟨none, none, none, none, none, none⟩

def c9st : Store := ⟨none, some "b".data⟩

theorem C9_witness :
    (∀ p ∈ c9ps2, p.id ≠ "b".data) ∧
    (storage.getProjects
        (storage.deleteProject "b".data (storage.saveProjects c9ps c9st)) =
      c9ps.filter (fun p => !(p.id == "b".data)) ∧
    (storage.deleteProject "b".data c9st).currentVal =
      (if c9st.currentVal = some "b".data then none else c9st.currentVal) ∧
    storage.updateProject "b".data c9upd "t2".data (storage.saveProjects c9ps2 c9st) =
      storage.saveProjects c9ps2 c9st) :=
  ⟨by decide, C9_delete_update_frame c9ps c9ps2 c9st "b".data c9upd "t2".data (by decide)⟩

def c8p : Project :=
  ⟨"p".data, "n".data, [], [⟨"s".data, "m".data, []⟩], "t".data, "t".data⟩

def c8upd : storage.ProjectUpdate := ⟨none, none, none, some [], none, none⟩

/-- C8 counterexample: `updateProject` with an update object whose `sketches`
field is `[]` empties the stored project's sketch list, so the storage
operations do not preserve "every project holds at least one sketch". -/
theorem C8_counterexample :
    ∃ p ∈ storage.getProjects
        (storage.updateProject "p".data c8upd "t2".data
          (storage.saveProjects [c8p] emptyStore)),
      p.sketches = [] := by
  have e1 : storage.updateProject "p".data c8upd "t2".data
      (storage.saveProjects [c8p] emptyStore) =
      storage.saveProjects [⟨"p".data, "n".data, [], [], "t".data, "t2".data⟩]
        (storage.saveProjects [c8p] emptyStore) := by
    have hc : ([c8p].any fun p => p.id == "p".data) = true := by decide
    simp only [storage.updateProject, getProjects_save, hc, if_true]
    rfl
  rw [e1, getProjects_save]
  exact ⟨⟨"p".data, "n".data, [], [], "t".data, "t2".data⟩,
    List.mem_singleton.mpr rfl, rfl⟩

/-- Stores reachable from the empty store through the storage operations,
with `addSketch` fed a fresh uuid (as `crypto.randomUUID` provides) and
`updateProject` restricted to updates that do not replace `sketches`. -/
inductive Reach : Store → Prop where
  | init : Reach emptyStore
  | create (uuidP uuidS now name desc : Str) {st : Store} :
      Reach st → Reach (storage.createProject uuidP uuidS now name desc st).2
  | addSk (uuid now pid name : Str) {st : Store} : Reach st →
      (∀ p ∈ storage.getProjects st, ∀ s ∈ p.sketches, s.id ≠ uuid) →
      Reach (match storage.addSketch uuid now pid name st with
             | Except.ok r => r.2
             | Except.error _ => st)
  | updSk (pid sid content now : Str) {st : Store} :
      Reach st → Reach (storage.updateSketch pid sid content now st)
  | delSk (pid sid now : Str) {st : Store} :
      Reach st → Reach (storage.deleteSketch pid sid now st)
  | delProj (idv : Str) {st : Store} : Reach st → Reach (storage.deleteProject idv st)
  | setCur (idv : Str) {st : Store} :
      Reach st → Reach (storage.setCurrentProjectId idv st)
  | updProj (idv : Str) (u : storage.ProjectUpdate) (now : Str) {st : Store} :
      Reach st → u.sketches? = none → Reach (storage.updateProject idv u now st)

/-- Invariant: every stored project has a non-empty sketch list with pairwise
distinct sketch ids. -/
def SketchInv (st : Store) : Prop :=
  ∀ p ∈ storage.getProjects st, p.sketches ≠ [] ∧ (p.sketches.map Sketch.id).Nodup

theorem mem_updFirst_cases {α : Type} (pred : α → Bool) (f : α → α) :
    ∀ (l : List α) (x : α), x ∈ storage.updFirst pred f l →
      x ∈ l ∨ ∃ a, l.find? pred = some a ∧ x = f a := by
  intro l
  induction l with
  | nil =>
    intro x hx
    exact absurd hx (List.not_mem_nil x)
  | cons y ys ih =>
    intro x hx
    by_cases hy : pred y = true
    · rw [storage.updFirst, if_pos hy] at hx
      rcases List.mem_cons.1 hx with h | h
      · exact Or.inr ⟨y, List.find?_cons_of_pos _ hy, h⟩
      · exact Or.inl (List.mem_cons_of_mem y h)
    · rw [storage.updFirst, if_neg hy] at hx
      rcases List.mem_cons.1 hx with h | h
      · exact Or.inl (h ▸ List.mem_cons_self y ys)
      · rcases ih x h with h2 | ⟨a, ha, hxa⟩
        · exact Or.inl (List.mem_cons_of_mem y h2)
        · exact Or.inr ⟨a, by rw [List.find?_cons_of_neg _ hy]; exact ha, hxa⟩

theorem map_updFirst_of_preserve {α β : Type} (pred : α → Bool) (f : α → α)
    (g : α → β) (hgf : ∀ x, g (f x) = g x) :
    ∀ l : List α, (storage.updFirst pred f l).map g = l.map g := by
  intro l
  induction l with
  | nil => rfl
  | cons y ys ih =>
    rw [storage.updFirst]
    by_cases hy : pred y = true
    · rw [if_pos hy, List.map_cons, List.map_cons, hgf]
    · rw [if_neg hy, List.map_cons, List.map_cons, ih]

theorem sketchInv_create (uuidP uuidS now name desc : Str) (st : Store)
    (h : SketchInv st) :
    SketchInv (storage.createProject uuidP uuidS now name desc st).2 := by
  intro p hp
  have e : (storage.createProject uuidP uuidS now name desc st).2 =
      storage.setCurrentProjectId uuidP
        (storage.saveProjects (storage.getProjects st ++
          [⟨uuidP, name, desc,
            [⟨uuidS, name ++ ".ino".data, storage.defaultSketchContent⟩],
            now, now⟩]) st) := rfl
  rw [e, getProjects_setCur, getProjects_save] at hp
  rcases List.mem_append.1 hp with hmem | hmem
  · exact h p hmem
  · rw [List.mem_singleton] at hmem
    subst hmem
    exact ⟨by simp, by simp⟩

theorem sketchInv_addSk (uuid now pid name : Str) (st : Store) (h : SketchInv st)
    (hf : ∀ p ∈ storage.getProjects st, ∀ s ∈ p.sketches, s.id ≠ uuid) :
    SketchInv (match storage.addSketch uuid now pid name st with
               | Except.ok r => r.2
               | Except.error _ => st) := by
  rcases hfind : (storage.getProjects st).find? (fun p => p.id == pid) with _ | a
  · have e : storage.addSketch uuid now pid name st =
        Except.error "Project not found".data := by
      simp only [storage.addSketch]
      rw [hfind]
    rw [e]
    exact h
  · have e : storage.addSketch uuid now pid name st =
        Except.ok ((⟨uuid, name, []⟩ : Sketch),
          storage.saveProjects
            (storage.updFirst (fun p => p.id == pid)
              (fun p => ⟨p.id, p.name, p.description,
                p.sketches ++ [⟨uuid, name, []⟩], p.createdAt, now⟩)
              (storage.getProjects st)) st) := by
      simp only [storage.addSketch]
      rw [hfind]
    rw [e]
    intro p hp
    rw [getProjects_save] at hp
    rcases mem_updFirst_cases _ _ _ _ hp with hmem | ⟨q, hq, hpq⟩
    · exact h p hmem
    · have hqmem := List.mem_of_find?_eq_some hq
      obtain ⟨hne, hnd⟩ := h q hqmem
      subst hpq
      constructor
      · simp
      · show ((q.sketches ++ [(⟨uuid, name, []⟩ : Sketch)]).map Sketch.id).Nodup
        rw [List.map_append]
        simp only [List.map_cons, List.map_nil]
        rw [List.nodup_append]
        refine ⟨hnd, List.nodup_singleton _, ?_⟩
        intro x hx hx2
        rw [List.mem_singleton] at hx2
        subst hx2
        rcases List.mem_map.1 hx with ⟨s, hs, hsid⟩
        exact hf q hqmem s hs hsid

theorem sketchInv_updSk (pid sid content now : Str) (st : Store)
    (h : SketchInv st) :
    SketchInv (storage.updateSketch pid sid content now st) := by
  rcases hfind : (storage.getProjects st).find? (fun p => p.id == pid) with _ | a
  · have e : storage.updateSketch pid sid content now st = st := by
      simp only [storage.updateSketch]
      rw [hfind]
    rw [e]
    exact h
  · by_cases hc : (a.sketches.any fun s => s.id == sid) = true
    · have e : storage.updateSketch pid sid content now st =
          storage.saveProjects
            (storage.updFirst (fun p => p.id == pid)
              (fun p => ⟨p.id, p.name, p.description,
                storage.updFirst (fun s => s.id == sid)
                  (fun s => ⟨s.id, s.name, content⟩) p.sketches,
                p.createdAt, now⟩)
              (storage.getProjects st)) st := by
        simp only [storage.updateSketch]
        rw [hfind]
        dsimp only
        rw [if_pos hc]
      rw [e]
      intro p hp
      rw [getProjects_save] at hp
      rcases mem_updFirst_cases _ _ _ _ hp with hmem | ⟨q, hq, hpq⟩
      · exact h p hmem
      · have hqmem := List.mem_of_find?_eq_some hq
        obtain ⟨hne, hnd⟩ := h q hqmem
        subst hpq
        have hm := map_updFirst_of_preserve (fun s => s.id == sid)
          (fun s => ⟨s.id, s.name, content⟩) Sketch.id (fun s => rfl) q.sketches
        constructor
        · show storage.updFirst (fun s => s.id == sid)
            (fun s => ⟨s.id, s.name, content⟩) q.sketches ≠ []
          intro hnil
          have h2 : q.sketches.map Sketch.id = [] := by
            rw [← hm, hnil]
            rfl
          cases hq2 : q.sketches with
          | nil => exact hne hq2
          | cons s ss =>
            rw [hq2] at h2
            simp at h2
        · show ((storage.updFirst (fun s => s.id == sid)
            (fun s => ⟨s.id, s.name, content⟩) q.sketches).map Sketch.id).Nodup
          rw [hm]
          exact hnd
    · have e : storage.updateSketch pid sid content now st = st := by
        simp only [storage.updateSketch]
        rw [hfind]
        dsimp only
        rw [if_neg hc]
      rw [e]
      exact h

theorem length_filter_ne (sid : Str) :
    ∀ l : List Sketch, (l.map Sketch.id).Nodup →
      l.length ≤ (l.filter (fun s => !(s.id == sid))).length + 1 := by
  intro l
  induction l with
  | nil =>
    intro _
    simp
  | cons s ss ih =>
    intro hnd
    rw [List.map_cons, List.nodup_cons] at hnd
    obtain ⟨hnotin, hnd2⟩ := hnd
    rw [List.filter_cons]
    by_cases hs : (s.id == sid) = true
    · have hall : ss.filter (fun t => !(t.id == sid)) = ss := by
        rw [List.filter_eq_self]
        intro t ht
        have htid : t.id ≠ sid := by
          intro he
          apply hnotin
          have hst : s.id = t.id := by
            rw [eq_of_beq hs]
            exact he.symm
          exact hst ▸ List.mem_map_of_mem Sketch.id ht
        simpa using htid
      rw [if_neg (by simp [hs]), hall]
      simp
    · have hs2 : (s.id == sid) = false := by
        cases hb : (s.id == sid) with
        | false => rfl
        | true => exact absurd hb hs
      rw [if_pos (by simp [hs2])]
      rw [List.length_cons, List.length_cons]
      have := ih hnd2
      omega

theorem sketchInv_delSk (pid sid now : Str) (st : Store) (h : SketchInv st) :
    SketchInv (storage.deleteSketch pid sid now st) := by
  rcases hfind : (storage.getProjects st).find? (fun p => p.id == pid) with _ | a
  · have e : storage.deleteSketch pid sid now st = st := by
      simp only [storage.deleteSketch]
      rw [hfind]
    rw [e]
    exact h
  · by_cases hc : 1 < a.sketches.length
    · have e : storage.deleteSketch pid sid now st =
          storage.saveProjects
            (storage.updFirst (fun p => p.id == pid)
              (fun p => ⟨p.id, p.name, p.description,
                p.sketches.filter (fun s => !(s.id == sid)), p.createdAt, now⟩)
              (storage.getProjects st)) st := by
        simp only [storage.deleteSketch]
        rw [hfind]
        dsimp only
        rw [if_pos hc]
      rw [e]
      intro p hp
      rw [getProjects_save] at hp
      rcases mem_updFirst_cases _ _ _ _ hp with hmem | ⟨q, hq, hpq⟩
      · exact h p hmem
      · have hqmem := List.mem_of_find?_eq_some hq
        obtain ⟨hne, hnd⟩ := h q hqmem
        rw [hfind] at hq
        have hqa : a = q := Option.some.inj hq
        subst hpq
        constructor
        · show q.sketches.filter (fun s => !(s.id == sid)) ≠ []
          have hlen := length_filter_ne sid q.sketches hnd
          intro hnil
          rw [hnil] at hlen
          rw [← hqa] at hlen
          simp only [List.length_nil] at hlen
          omega
        · show ((q.sketches.filter (fun s => !(s.id == sid))).map Sketch.id).Nodup
          exact List.Nodup.sublist ((List.filter_sublist _).map Sketch.id) hnd
    · have e : storage.deleteSketch pid sid now st = st := by
        simp only [storage.deleteSketch]
        rw [hfind]
        dsimp only
        rw [if_neg hc]
      rw [e]
      exact h

theorem sketchInv_delProj (idv : Str) (st : Store) (h : SketchInv st) :
    SketchInv (storage.deleteProject idv st) := by
  intro p hp
  rw [getProjects_delete] at hp
  exact h p (List.mem_of_mem_filter hp)

theorem sketchInv_setCur (idv : Str) (st : Store) (h : SketchInv st) :
    SketchInv (storage.setCurrentProjectId idv st) := by
  intro p hp
  rw [getProjects_setCur] at hp
  exact h p hp

theorem sketchInv_updProj (idv : Str) (u : storage.ProjectUpdate) (now : Str)
    (st : Store) (h : SketchInv st) (hs : u.sketches? = none) :
    SketchInv (storage.updateProject idv u now st) := by
  by_cases hc : ((storage.getProjects st).any fun p => p.id == idv) = true
  · have e : storage.updateProject idv u now st =
        storage.saveProjects
          (storage.updFirst (fun p => p.id == idv)
            (fun p => storage.applyUpdate p u now) (storage.getProjects st)) st := by
      simp only [storage.updateProject, hc, if_true]
    rw [e]
    intro p hp
    rw [getProjects_save] at hp
    rcases mem_updFirst_cases _ _ _ _ hp with hmem | ⟨q, hq, hpq⟩
    · exact h p hmem
    · have hqmem := List.mem_of_find?_eq_some hq
      obtain ⟨hne, hnd⟩ := h q hqmem
      subst hpq
      have hsk : (storage.applyUpdate q u now).sketches = q.sketches := by
        simp [storage.applyUpdate, hs]
      rw [hsk]
      exact ⟨hne, hnd⟩
  · have hc2 : ((storage.getProjects st).any fun p => p.id == idv) = false := by
      cases hb : ((storage.getProjects st).any fun p => p.id == idv) with
      | false => rfl
      | true => exact absurd hb hc
    rw [updateProject_no_match idv u now st hc2]
    exact h

theorem reach_inv : ∀ {st : Store}, Reach st → SketchInv st := by
  intro st h
  induction h with
  | init =>
    intro p hp
    exact absurd hp (List.not_mem_nil p)
  | create uP uS now n d h ih => exact sketchInv_create uP uS now n d _ ih
  | addSk uuid now pid name h hf ih => exact sketchInv_addSk uuid now pid name _ ih hf
  | updSk pid sid content now h ih => exact sketchInv_updSk pid sid content now _ ih
  | delSk pid sid now h ih => exact sketchInv_delSk pid sid now _ ih
  | delProj idv h ih => exact sketchInv_delProj idv _ ih
  | setCur idv h ih => exact sketchInv_setCur idv _ ih
  | updProj idv u now h hs ih => exact sketchInv_updProj idv u now _ ih hs

/-- C8 (amended): every project holds at least one sketch in every store
reachable from the empty store through createProject, addSketch with a fresh
sketch id (as crypto.randomUUID provides), updateSketch, deleteSketch,
deleteProject, setCurrentProjectId, and updateProject restricted to updates
that do not replace the sketches field: createProject always creates a
project with exactly one initial sketch, addSketch only appends, and
deleteSketch refuses to delete when the project has only one sketch, so none
of these operations reduces a project's sketch list to empty.  (An
unrestricted updateProject can: see the counterexample.) -/
theorem C8_sketch_nonempty_amended (st : Store) (h : Reach st) :
    ∀ p ∈ storage.getProjects st, p.sketches ≠ [] := by
  intro p hp
  exact (reach_inv h p hp).1

/-- Witness for the amended C8 theorem: a concrete reachable store (one
createProject step) in which every project has a non-empty sketch list. -/
theorem C8_amended_witness :
    Reach (storage.createProject "u1".data "u2".data "t".data "n".data []
      emptyStore).2 ∧
    ∀ p ∈ storage.getProjects
        (storage.createProject "u1".data "u2".data "t".data "n".data []
          emptyStore).2,
      p.sketches ≠ [] :=
  ⟨Reach.create "u1".data "u2".data "t".data "n".data [] Reach.init,
   C8_sketch_nonempty_amended _
     (Reach.create "u1".data "u2".data "t".data "n".data [] Reach.init)⟩
